import Mathlib

/-!
Verification of the CoreDNS multi-configuration forward-rule engine.

The Go source manipulates configuration text with the functions of the
`strings` package.  Strings are embedded as lists of characters
(`GoStr`), and each `strings` operation used by the source is given an
executable counterpart below, so that every model function evaluates on
concrete inputs.
-/

set_option maxHeartbeats 1000000

abbrev GoStr := List Char

/-- Go `unicode.IsSpace`: the Unicode White_Space property, i.e. `'\t'`,
`'\n'`, `'\v'`, `'\f'`, `'\r'`, `' '`, U+0085, U+00A0, U+1680,
U+2000 through U+200A, U+2028, U+2029, U+202F, U+205F and U+3000. -/
def isSpaceGo (c : Char) : Bool :=
  c = ' ' || c = '\t' || c = '\n' || c = '\x0b' || c = '\x0c' || c = '\r' ||
    c = '\x85' || c = '\xa0' || c = '\u1680' ||
    (0x2000 ≤ c.toNat && c.toNat ≤ 0x200a) ||
    c = '\u2028' || c = '\u2029' || c = '\u202f' || c = '\u205f' || c = '\u3000'

/-- Left part of Go `strings.TrimSpace`. -/
def trimLeftL (l : GoStr) : GoStr := l.dropWhile isSpaceGo

/-- Right part of Go `strings.TrimSpace`. -/
def trimRightL (l : GoStr) : GoStr := (l.reverse.dropWhile isSpaceGo).reverse

/-- Go `strings.TrimSpace`. -/
def trimSpaceL (l : GoStr) : GoStr := trimRightL (trimLeftL l)

/-- Go `strings.HasPrefix l p`. -/
def startsWithL (l p : GoStr) : Bool := p.isPrefixOf l

/-- Go `strings.HasSuffix l sfx`. -/
def endsWithL (l sfx : GoStr) : Bool := sfx.isSuffixOf l

/-- Go `strings.TrimSuffix`. -/
def trimSuffixL (l sfx : GoStr) : GoStr :=
  if endsWithL l sfx then l.take (l.length - sfx.length) else l

/-- Go `strings.SplitN s sep 2` for a one-character separator, presented as
the optional split at the first occurrence (`none` when `sep` is absent). -/
def splitFirst (sep : Char) : GoStr → Option (GoStr × GoStr)
  | [] => none
  | c :: cs =>
    if c = sep then some ([], cs)
    else
      match splitFirst sep cs with
      | none => none
      | some (a, b) => some (c :: a, b)

/-- Go `strings.Split s "\n"`. -/
def splitLines : GoStr → List GoStr
  | [] => [[]]
  | c :: cs =>
    if c = '\n' then [] :: splitLines cs
    else
      match splitLines cs with
      | [] => [[c]]
      | l :: ls => (c :: l) :: ls

/-- Go `strings.Join ls "\n"`. -/
def joinLines : List GoStr → GoStr
  | [] => []
  | [l] => l
  | l :: l2 :: ls => l ++ '\n' :: joinLines (l2 :: ls)

/-- Go `strings.Contains l sub` (substring search). -/
def containsSub : GoStr → GoStr → Bool
  | [], sub => sub.isEmpty
  | c :: rest, sub => sub.isPrefixOf (c :: rest) || containsSub rest sub

/-- Go `strings.Contains line c` for a one-character needle. -/
def hasCh (l : GoStr) (c : Char) : Bool := l.any (fun d => d = c)

/-- Go `strings.Count line c` for a one-character needle. -/
def countCh (l : GoStr) (c : Char) : Nat := l.count c

/-- Accumulator recursion behind `fieldsL`. -/
def fieldsAux : GoStr → GoStr → List GoStr
  | [], acc => if acc = [] then [] else [acc.reverse]
  | c :: cs, acc =>
    if isSpaceGo c then
      if acc = [] then fieldsAux cs [] else acc.reverse :: fieldsAux cs []
    else fieldsAux cs (c :: acc)

/-- Go `strings.Fields`. -/
def fieldsL (l : GoStr) : List GoStr := fieldsAux l []

/-! ## The rule model (src/pkg/models/coredns.go) -/

/-- Model of `models.ForwardRule`. -/
structure ForwardRule where
  Namespace : GoStr
  ServiceName : GoStr
  TargetIP : GoStr
  IsFullFQDN : Bool
deriving DecidableEq, Repr

/-- Model of `(*ForwardRule).GetFullName`. -/
def GetFullName (r : ForwardRule) : GoStr :=
  if r.ServiceName ≠ [] then r.ServiceName ++ '.' :: r.Namespace else r.Namespace

/-- Model of `(*ForwardRule).ToCorefile`: renders the rule as its Corefile block. -/
def ToCorefile (r : ForwardRule) : GoStr :=
  if r.IsFullFQDN then
    GetFullName r ++ ".svc.cluster.local:53 ".toList ++ '{' :: '\n' ::
      "    forward . ".toList ++ r.TargetIP ++ ['\n', '}']
  else if r.ServiceName ≠ [] then
    GetFullName r ++ ":53 ".toList ++ '{' :: '\n' ::
      "    rewrite name exact ".toList ++ GetFullName r ++ ' ' ::
      (GetFullName r ++ ".svc.cluster.local. answer auto".toList) ++ '\n' ::
      "    forward . ".toList ++ r.TargetIP ++ ['\n', '}']
  else
    r.Namespace ++ ":53 ".toList ++ '{' :: '\n' ::
      "    rewrite name regex (.*)\\.".toList ++ r.Namespace ++ ' ' ::
      (r.Namespace ++ ".svc.cluster.local. answer auto".toList) ++ '\n' ::
      "    forward . ".toList ++ r.TargetIP ++ ['\n', '}']

/-- Model of `models.ParseNameInput`: returns `(serviceName, namespace, isFullFQDN)`. -/
def ParseNameInput (input : GoStr) : GoStr × GoStr × Bool :=
  let t := trimSpaceL input
  let fq := endsWithL t (".svc.cluster.local".toList)
  let t2 := if fq then trimSuffixL t (".svc.cluster.local".toList) else t
  match splitFirst '.' t2 with
  | some (a, b) => (a, b, fq)
  | none => ([], t2, fq)

/-! ## The parser (pkg/k8s parseForwardRules) -/

/-- The domain part a candidate header line yields: the trimmed line with the
trailing brace, an optional trailing space, and the `:53` suffix stripped,
then trimmed again. -/
def domainPartOf (trimmed : GoStr) : GoStr :=
  trimSpaceL (trimSuffixL (trimSuffixL (trimSuffixL trimmed ['{']) [' ']) (":53".toList))

/-- The part of `parseForwardRules` that classifies an extracted domain part:
skip root zones, detect the FQDN suffix, split service from namespace, and
skip an empty namespace. -/
def headerOfDomain (domainPart : GoStr) : Option (GoStr × GoStr × Bool) :=
  if domainPart = [] ∨ domainPart = ['.'] ∨ domainPart = ("cluster.local".toList) then
    none
  else
    let r :=
      if endsWithL domainPart (".svc.cluster.local".toList) then
        let p := ParseNameInput (trimSuffixL domainPart (".svc.cluster.local".toList))
        (p.1, p.2.1, true)
      else
        match splitFirst '.' domainPart with
        | some (a, b) => (a, b, false)
        | none => ([], domainPart, false)
    if r.2.1 = [] then none else some r

/-- The header analysis of one line of `parseForwardRules`: `none` when the
line is skipped, otherwise `(serviceName, namespace, isFullFQDN)`. -/
def headerInfo (line : GoStr) : Option (GoStr × GoStr × Bool) :=
  if containsSub (trimSpaceL line) (":53".toList) then
    if endsWithL (trimSpaceL line) ['{'] || endsWithL (trimSpaceL line) ['{', ' '] then
      headerOfDomain (domainPartOf (trimSpaceL line))
    else none
  else none

/-- The lookahead of `parseForwardRules`: scan at most `fuel` lines after a
header for the first line whose trimmed form starts with `forward .`,
returning its third whitespace-separated token; stop without a result at a
trimmed line containing `}`. -/
def scanForward : Nat → List GoStr → Option GoStr
  | 0, _ => none
  | _ + 1, [] => none
  | fuel + 1, l :: rest =>
    if startsWithL (trimSpaceL l) ("forward .".toList) then
      match fieldsL (trimSpaceL l) with
      | _ :: _ :: ip :: _ => some ip
      | _ => none
    else if hasCh (trimSpaceL l) '}' then none
    else scanForward fuel rest

/-- Body of `parseForwardRules`, after the initial split into lines.  Each line is
examined as a candidate header; a rule is emitted when the header is
recognised and the nine-line lookahead finds a `forward .` directive. -/
def parseForwardRulesLines : List GoStr → List ForwardRule
  | [] => []
  | line :: rest =>
    match headerInfo line with
    | none => parseForwardRulesLines rest
    | some (svc, ns, fq) =>
      match scanForward 9 rest with
      | none => parseForwardRulesLines rest
      | some ip => ⟨ns, svc, ip, fq⟩ :: parseForwardRulesLines rest

/-- Model of `parseForwardRules` (pkg/k8s): extract the forward rules of a Corefile. -/
def parseForwardRules (corefile : GoStr) : List ForwardRule :=
  parseForwardRulesLines (splitLines corefile)

/-! ## Deletion (pkg/k8s DeleteForwardRule) -/

/-- The header prefix `DeleteForwardRule` computes for the rule identity it
is asked to delete. -/
def deleteTargetBlock (name : GoStr) (isFullFQDN : Bool) : GoStr :=
  let p := ParseNameInput name
  let fullName := if p.1 ≠ [] then p.1 ++ '.' :: p.2.1 else p.2.1
  if isFullFQDN then fullName ++ ".svc.cluster.local:53".toList
  else fullName ++ ":53".toList

/-- The line loop of `DeleteForwardRule`: drop every line of a block whose
trimmed header starts with `ruleBlock`, tracking brace depth, and copy all
other lines.  A line whose trimmed form starts with the target prefix
(re)enters skipping with the depth reset to zero; while skipping, the depth
is adjusted by the brace counts of the raw line, and the block ends at a
line containing `}` once the depth is no longer positive. -/
def deleteLoop (ruleBlock : GoStr) : List GoStr → Bool → Int → List GoStr
  | [], _, _ => []
  | line :: rest, skipBlock, braceCount =>
    if startsWithL (trimSpaceL line) ruleBlock || skipBlock then
      if (if startsWithL (trimSpaceL line) ruleBlock then 0 else braceCount) +
          (countCh line '{' : Int) - (countCh line '}' : Int) ≤ 0 ∧ hasCh line '}' then
        deleteLoop ruleBlock rest false
          ((if startsWithL (trimSpaceL line) ruleBlock then 0 else braceCount) +
            (countCh line '{' : Int) - (countCh line '}' : Int))
      else
        deleteLoop ruleBlock rest true
          ((if startsWithL (trimSpaceL line) ruleBlock then 0 else braceCount) +
            (countCh line '{' : Int) - (countCh line '}' : Int))
    else
      line :: deleteLoop ruleBlock rest skipBlock braceCount

/-- The pure text transformation of `DeleteForwardRule`. -/
def deleteRuleText (name : GoStr) (isFullFQDN : Bool) (corefile : GoStr) : GoStr :=
  joinLines (deleteLoop (deleteTargetBlock name isFullFQDN) (splitLines corefile) false 0)

/-! ## Orchestration (pkg/k8s AddForwardRule / DeleteForwardRule) -/

/-- Error kinds of the config applier. -/
inductive CoreError where
  | duplicateRule : GoStr → CoreError
  | ruleNotFound : GoStr → CoreError
deriving DecidableEq, Repr

/-- Model of `AddForwardRule` against a store holding `corefile`: the first component
is the call result, the second the stored text afterwards.  On a duplicate
`fullName` the call fails and nothing is written back. -/
def AddForwardRule (corefile : GoStr) (rule : ForwardRule) :
    Except CoreError GoStr × GoStr :=
  let existing := parseForwardRules corefile
  if existing.any (fun r => decide (GetFullName r = GetFullName rule)) then
    (Except.error (CoreError.duplicateRule (GetFullName rule)), corefile)
  else
    let newCorefile := corefile ++ '\n' :: (ToCorefile rule ++ ['\n'])
    (Except.ok newCorefile, newCorefile)

/-- Model of `DeleteForwardRule` against a store holding `corefile`: applies the text
transformation and writes back unconditionally; no error is ever produced
for an absent rule. -/
def DeleteForwardRule (corefile name : GoStr) (isFullFQDN : Bool) :
    Except CoreError GoStr × GoStr :=
  let newCorefile := deleteRuleText name isFullFQDN corefile
  (Except.ok newCorefile, newCorefile)

/-! ## The connection cache (pkg/k8s Manager) -/

abbrev ClusterID := String

/-- Model of `k8s.Manager`: the map of cached cluster clients.  Handles are modelled
as natural numbers drawn from a fresh counter, so that distinct
constructions yield distinct handles. -/
structure Manager where
  clients : List (ClusterID × Nat)
  nextHandle : Nat
deriving DecidableEq, Repr

/-- Map lookup on the client cache. -/
def lookupClient (m : Manager) (id : ClusterID) : Option Nat :=
  (m.clients.find? (fun p => decide (p.1 = id))).map Prod.snd

/-- Model of `(*Manager).GetClient`: return the cached handle, or construct, cache
and return a fresh one. -/
def GetClient (m : Manager) (id : ClusterID) : Nat × Manager :=
  match lookupClient m id with
  | some h => (h, m)
  | none => (m.nextHandle, ⟨(id, m.nextHandle) :: m.clients, m.nextHandle + 1⟩)

/-- Model of `(*Manager).RemoveClient`: evict one identifier from the cache. -/
def RemoveClient (m : Manager) (id : ClusterID) : Manager :=
  ⟨m.clients.filter (fun p => decide (p.1 ≠ id)), m.nextHandle⟩

/-- Model of `(*Manager).TestConnection`: resolve a handle, then probe it; `live` is
the outcome of the liveness call.  On failure the cached client is removed
and a connectivity error returned. -/
def TestConnection (m : Manager) (id : ClusterID) (live : Bool) :
    Except String Unit × Manager :=
  let hm := GetClient m id
  if live then (Except.ok (), hm.2)
  else (Except.error "failed to connect to cluster", RemoveClient hm.2 id)

/-- Well-formedness of the cache: every cached handle was drawn from the
fresh counter. -/
def ManagerWF (m : Manager) : Prop := ∀ p ∈ m.clients, p.2 < m.nextHandle

instance managerWFDec (m : Manager) : Decidable (ManagerWF m) :=
  inferInstanceAs (Decidable (∀ p ∈ m.clients, p.2 < m.nextHandle))

/-! ## Character-class predicates used in the claims -/

/-- A whitespace-free token. -/
def wsFree (l : GoStr) : Prop := ∀ c ∈ l, isSpaceGo c = false

/-- A dot-free string. -/
def dotFree (l : GoStr) : Prop := ∀ c ∈ l, c ≠ '.'

/-- No closing brace occurs. -/
def noCloseBrace (l : GoStr) : Prop := ∀ c ∈ l, c ≠ '}'

/-- No opening brace occurs. -/
def noOpenBrace (l : GoStr) : Prop := ∀ c ∈ l, c ≠ '{'

/-- A line whose trimmed form starts with the `forward .` directive. -/
def isFwdLine (l : GoStr) : Bool := startsWithL (trimSpaceL l) ("forward .".toList)

instance wsFreeDec (l : GoStr) : Decidable (wsFree l) :=
  inferInstanceAs (Decidable (∀ c ∈ l, isSpaceGo c = false))

instance dotFreeDec (l : GoStr) : Decidable (dotFree l) :=
  inferInstanceAs (Decidable (∀ c ∈ l, c ≠ '.'))

instance noCloseBraceDec (l : GoStr) : Decidable (noCloseBrace l) :=
  inferInstanceAs (Decidable (∀ c ∈ l, c ≠ '}'))

instance noOpenBraceDec (l : GoStr) : Decidable (noOpenBrace l) :=
  inferInstanceAs (Decidable (∀ c ∈ l, c ≠ '{'))

/-! ## String-level lemmas -/

theorem trimLeft_all_space : ∀ (s : GoStr), (∀ c ∈ s, isSpaceGo c = true) →
    ∀ l, trimLeftL (s ++ l) = trimLeftL l
  | [], _, l => rfl
  | c :: cs, h, l => by
    have hc : isSpaceGo c = true := h c (List.mem_cons_self c cs)
    simp only [trimLeftL, List.cons_append, List.dropWhile_cons, hc, if_true]
    exact trimLeft_all_space cs (fun d hd => h d (List.mem_cons_of_mem c hd)) l

theorem trimLeft_cons_ns (c : Char) (l : GoStr) (h : isSpaceGo c = false) :
    trimLeftL (c :: l) = c :: l := by
  simp [trimLeftL, List.dropWhile_cons, h]

theorem trimRight_concat_ns (c : Char) (l : GoStr) (h : isSpaceGo c = false) :
    trimRightL (l ++ [c]) = l ++ [c] := by
  simp [trimRightL, List.dropWhile_cons, h]

theorem trimSpace_shape (c d : Char) (a : GoStr) (hc : isSpaceGo c = false)
    (hd : isSpaceGo d = false) : trimSpaceL (c :: a ++ [d]) = c :: a ++ [d] := by
  have h1 : trimLeftL (c :: a ++ [d]) = c :: a ++ [d] := trimLeft_cons_ns c (a ++ [d]) hc
  have h2 : trimRightL ((c :: a) ++ [d]) = (c :: a) ++ [d] := trimRight_concat_ns d (c :: a) hd
  simp only [trimSpaceL, h1]
  simpa using h2

theorem trimSpace_wsFree (l : GoStr) (h : wsFree l) : trimSpaceL l = l := by
  cases hl : l with
  | nil => rfl
  | cons c cs =>
    subst hl
    rcases List.eq_nil_or_concat cs with h0 | ⟨q, d, hq⟩
    · subst h0
      have hc : isSpaceGo c = false := h c (by simp)
      have h1 : trimLeftL [c] = [c] := trimLeft_cons_ns c [] hc
      have h2 : trimRightL ([] ++ [c]) = [] ++ [c] := trimRight_concat_ns c [] hc
      simp only [trimSpaceL, h1]
      simpa using h2
    · subst hq
      have := trimSpace_shape c d q (h c (by simp)) (h d (by simp))
      simpa using this

theorem endsWith_append_self (a b : GoStr) : endsWithL (a ++ b) b = true := by
  rw [endsWithL, List.isSuffixOf_iff_suffix]
  exact List.suffix_append a b

theorem startsWith_append_self (a b : GoStr) : startsWithL (a ++ b) a = true := by
  rw [startsWithL, List.isPrefixOf_iff_prefix]
  exact List.prefix_append a b

theorem trimSuffix_exact (a b : GoStr) : trimSuffixL (a ++ b) b = a := by
  rw [trimSuffixL, if_pos (endsWith_append_self a b)]
  simp [List.take_left]

theorem trimSuffix_of_not (l s : GoStr) (h : endsWithL l s = false) :
    trimSuffixL l s = l := by
  simp [trimSuffixL, h]

theorem countCh_le_of_endsWith (a b : GoStr) (c : Char) (h : endsWithL a b = true) :
    countCh b c ≤ countCh a c := by
  rw [endsWithL, List.isSuffixOf_iff_suffix] at h
  obtain ⟨t, rfl⟩ := h
  simp [countCh, List.count_append]

theorem endsWith_eq_false_of_count (a b : GoStr) (c : Char)
    (h : countCh a c < countCh b c) : endsWithL a b = false := by
  cases he : endsWithL a b
  · rfl
  · exact absurd (countCh_le_of_endsWith a b c he) (by omega)

theorem countCh_eq_zero (l : GoStr) (c : Char) (h : c ∉ l) : countCh l c = 0 :=
  List.count_eq_zero_of_not_mem h

theorem hasCh_eq_true_iff (l : GoStr) (c : Char) : hasCh l c = true ↔ c ∈ l := by
  simp only [hasCh, List.any_eq_true, decide_eq_true_eq]
  constructor
  · rintro ⟨x, hx, rfl⟩; exact hx
  · intro hx; exact ⟨c, hx, rfl⟩

theorem hasCh_eq_false_iff (l : GoStr) (c : Char) : hasCh l c = false ↔ c ∉ l := by
  rw [← Bool.not_eq_true, hasCh_eq_true_iff]

theorem splitFirst_not_mem (c : Char) : ∀ (l : GoStr), c ∉ l → splitFirst c l = none
  | [], _ => rfl
  | d :: ds, h => by
    have hd : ¬ d = c := fun hh => h (hh ▸ List.mem_cons_self d ds)
    rw [splitFirst, if_neg hd, splitFirst_not_mem c ds (fun hm => h (List.mem_cons_of_mem d hm))]

theorem splitFirst_append (c : Char) : ∀ (a b : GoStr), c ∉ a →
    splitFirst c (a ++ c :: b) = some (a, b)
  | [], b, _ => by simp [splitFirst]
  | d :: ds, b, h => by
    have hd : ¬ d = c := fun hh => h (hh ▸ List.mem_cons_self d ds)
    rw [List.cons_append, splitFirst, if_neg hd,
      splitFirst_append c ds b (fun hm => h (List.mem_cons_of_mem d hm))]

theorem isPrefixOf_eq_false_of_longer (p l : GoStr) (h : l.length < p.length) :
    p.isPrefixOf l = false := by
  cases hp : p.isPrefixOf l
  · rfl
  · exact absurd (List.IsPrefix.length_le (List.isPrefixOf_iff_prefix.mp hp)) (by omega)

theorem containsSub_append_right (sub : GoStr) : ∀ (a b : GoStr),
    containsSub b sub = true → containsSub (a ++ b) sub = true
  | [], b, h => by simpa using h
  | d :: ds, b, h => by
    rw [List.cons_append, containsSub, containsSub_append_right sub ds b h]
    simp

theorem containsSub_of_isPrefixOf (s sub : GoStr) (h : sub.isPrefixOf s = true) :
    containsSub s sub = true := by
  cases s with
  | nil =>
    cases sub with
    | nil => rfl
    | cons c cs => simp [List.isPrefixOf] at h
  | cons c cs => simp [containsSub, h]

theorem containsSub_self_append (sub r : GoStr) : containsSub (sub ++ r) sub = true :=
  containsSub_of_isPrefixOf (sub ++ r) sub (startsWith_append_self sub r)

theorem splitLines_no_nl : ∀ (a : GoStr), '\n' ∉ a → splitLines a = [a]
  | [], _ => rfl
  | c :: cs, h => by
    have hc : ¬ c = '\n' := fun hh => h (hh ▸ List.mem_cons_self c cs)
    rw [splitLines, if_neg hc, splitLines_no_nl cs (fun hm => h (List.mem_cons_of_mem c hm))]

theorem splitLines_append : ∀ (a b : GoStr), '\n' ∉ a →
    splitLines (a ++ '\n' :: b) = a :: splitLines b
  | [], b, _ => by simp [splitLines]
  | c :: cs, b, h => by
    have hc : ¬ c = '\n' := fun hh => h (hh ▸ List.mem_cons_self c cs)
    rw [List.cons_append, splitLines, if_neg hc,
      splitLines_append cs b (fun hm => h (List.mem_cons_of_mem c hm))]

theorem splitLines_ne_nil : ∀ (s : GoStr), splitLines s ≠ []
  | [] => by simp [splitLines]
  | c :: cs => by
    rw [splitLines]
    by_cases hc : c = '\n'
    · simp [hc]
    · rw [if_neg hc]
      cases hs : splitLines cs with
      | nil => simp
      | cons l ls => simp

theorem joinLines_splitLines : ∀ (s : GoStr), joinLines (splitLines s) = s
  | [] => rfl
  | c :: cs => by
    rw [splitLines]
    by_cases hc : c = '\n'
    · rw [if_pos hc]
      cases hs : splitLines cs with
      | nil => exact absurd hs (splitLines_ne_nil cs)
      | cons l ls =>
        have := joinLines_splitLines cs
        rw [hs] at this
        rw [joinLines, this, hc]
        simp
    · rw [if_neg hc]
      cases hs : splitLines cs with
      | nil => exact absurd hs (splitLines_ne_nil cs)
      | cons l ls =>
        have := joinLines_splitLines cs
        rw [hs] at this
        cases ls with
        | nil =>
          rw [joinLines]
          rw [joinLines] at this
          rw [this]
        | cons l2 ls2 =>
          rw [joinLines, List.cons_append]
          rw [joinLines] at this
          rw [this]

theorem splitLines_joinLines : ∀ (ls : List GoStr), (∀ l ∈ ls, '\n' ∉ l) → ls ≠ [] →
    splitLines (joinLines ls) = ls
  | [], _, h => absurd rfl h
  | [l], h, _ => by
    rw [joinLines, splitLines_no_nl l (h l (by simp))]
  | l :: l2 :: ls2, h, _ => by
    rw [joinLines, splitLines_append l _ (h l (by simp)),
      splitLines_joinLines (l2 :: ls2) (fun x hx => h x (List.mem_cons_of_mem l hx)) (by simp)]

theorem fieldsAux_word : ∀ (w : GoStr), (∀ c ∈ w, isSpaceGo c = false) →
    ∀ (l acc : GoStr), fieldsAux (w ++ l) acc = fieldsAux l (w.reverse ++ acc)
  | [], _, l, acc => by simp
  | c :: cs, h, l, acc => by
    have hc : isSpaceGo c = false := h c (List.mem_cons_self c cs)
    rw [List.cons_append, fieldsAux, if_neg (by simp [hc]),
      fieldsAux_word cs (fun d hd => h d (List.mem_cons_of_mem c hd)) l (c :: acc)]
    simp

theorem fieldsAux_all_word (w : GoStr) (hw : w ≠ []) (h : ∀ c ∈ w, isSpaceGo c = false)
    (acc : GoStr) : fieldsAux w acc = [acc.reverse ++ w] := by
  have := fieldsAux_word w h [] acc
  rw [List.append_nil] at this
  rw [this, fieldsAux, if_neg (by simp [hw]), List.reverse_append, List.reverse_reverse]

theorem fields_forward_line (ip : GoStr) (hip : ip ≠ []) (h : wsFree ip) :
    fieldsL ("forward . ".toList ++ ip) = ["forward".toList, ['.'], ip] := by
  have e1 : "forward . ".toList = "forward".toList ++ [' '] ++ (['.'] ++ ([' '] ++ [])) := by decide
  rw [fieldsL, e1]
  rw [show ("forward".toList ++ [' '] ++ (['.'] ++ ([' '] ++ []))) ++ ip
      = "forward".toList ++ ([' '] ++ (['.'] ++ ([' '] ++ ip))) by simp]
  rw [fieldsAux_word ("forward".toList) (by decide) _ []]
  rw [show ([' '] ++ (['.'] ++ ([' '] ++ ip))) = ' ' :: (['.'] ++ ([' '] ++ ip)) by simp]
  rw [fieldsAux, if_pos (by decide), if_neg (by decide)]
  rw [show (['.'] ++ ([' '] ++ ip)) = '.' :: ([' '] ++ ip) by simp]
  rw [fieldsAux, if_neg (by decide)]
  rw [show ([' '] ++ ip) = ' ' :: ip by simp]
  rw [fieldsAux, if_pos (by decide), if_neg (by decide)]
  rw [fieldsAux_all_word ip hip h []]
  simp

theorem wsFree_append (a b : GoStr) (ha : wsFree a) (hb : wsFree b) : wsFree (a ++ b) := by
  intro c hc
  rcases List.mem_append.mp hc with h | h
  · exact ha c h
  · exact hb c h

theorem wsFree_cons (c : Char) (l : GoStr) (hc : isSpaceGo c = false) (hl : wsFree l) :
    wsFree (c :: l) := by
  intro d hd
  rcases List.mem_cons.mp hd with h | h
  · exact h ▸ hc
  · exact hl d h

theorem nl_not_mem_of_wsFree (l : GoStr) (h : wsFree l) : '\n' ∉ l := by
  intro hm
  have h1 : isSpaceGo '\n' = true := by decide
  rw [h '\n' hm] at h1
  exact Bool.false_ne_true h1

theorem not_mem_append (c : Char) (a b : GoStr) (ha : c ∉ a) (hb : c ∉ b) : c ∉ a ++ b := by
  intro hm
  rcases List.mem_append.mp hm with h | h
  · exact ha h
  · exact hb h

theorem not_mem_cons (c d : Char) (l : GoStr) (hd : ¬ c = d) (hl : c ∉ l) : c ∉ d :: l := by
  intro hm
  rcases List.mem_cons.mp hm with h | h
  · exact hd h
  · exact hl h

theorem endsWith_last_ne (a b : GoStr) (c d : Char) (h : ¬ c = d) :
    endsWithL (a ++ [c]) (b ++ [d]) = false := by
  cases he : endsWithL (a ++ [c]) (b ++ [d])
  · rfl
  · rw [endsWithL, List.isSuffixOf_iff_suffix] at he
    obtain ⟨t, ht⟩ := he
    rw [show t ++ (b ++ [d]) = (t ++ b) ++ [d] by simp] at ht
    exact absurd (List.append_inj' ht rfl).2 (by simp; exact fun hh => h hh.symm)

theorem startsWith_cons_ne (c d : Char) (l p : GoStr) (h : ¬ d = c) :
    startsWithL (c :: l) (d :: p) = false := by
  rw [startsWithL]
  cases hp : (d :: p).isPrefixOf (c :: l)
  · rfl
  · rw [List.isPrefixOf_iff_prefix] at hp
    obtain ⟨t, ht⟩ := hp
    rw [List.cons_append] at ht
    exact absurd (List.head_eq_of_cons_eq ht) h

theorem parse_cons_of_header_none (l : GoStr) (rest : List GoStr)
    (h : headerInfo l = none) :
    parseForwardRulesLines (l :: rest) = parseForwardRulesLines rest := by
  rw [parseForwardRulesLines, h]

theorem parse_cons_of_scan_none (l : GoStr) (rest : List GoStr)
    (h : scanForward 9 rest = none) :
    parseForwardRulesLines (l :: rest) = parseForwardRulesLines rest := by
  cases hh : headerInfo l with
  | none => rw [parseForwardRulesLines, hh]
  | some v =>
    obtain ⟨svc, ns, fq⟩ := v
    rw [parseForwardRulesLines, hh, h]

theorem parse_cons_some (l : GoStr) (rest : List GoStr) (svc ns ip : GoStr) (fq : Bool)
    (hh : headerInfo l = some (svc, ns, fq)) (hs : scanForward 9 rest = some ip) :
    parseForwardRulesLines (l :: rest) =
      ⟨ns, svc, ip, fq⟩ :: parseForwardRulesLines rest := by
  rw [parseForwardRulesLines, hh, hs]

theorem fwdLit : "forward .".toList = ['f', 'o', 'r', 'w', 'a', 'r', 'd', ' ', '.'] := rfl

theorem scanForward_no_fwd : ∀ (fuel : Nat) (ls : List GoStr),
    (∀ l ∈ ls.take fuel, isFwdLine l = false) → scanForward fuel ls = none
  | 0, _, _ => rfl
  | _ + 1, [], _ => rfl
  | fuel + 1, l :: rest, h => by
    have hl : startsWithL (trimSpaceL l) ("forward .".toList) = false :=
      h l (by simp [List.take_succ_cons])
    rw [fwdLit] at hl
    rw [scanForward, if_neg (by simp [hl])]
    by_cases hb : hasCh (trimSpaceL l) '}' = true
    · rw [if_pos hb]
    · rw [if_neg hb]
      exact scanForward_no_fwd fuel rest
        (fun x hx => h x (by simp [List.take_succ_cons]; right; exact hx))

theorem scanForward_brace : ∀ (pre : List GoStr) (l : GoStr) (post : List GoStr) (fuel : Nat),
    pre.length < fuel → (∀ x ∈ pre, isFwdLine x = false) → isFwdLine l = false →
    hasCh (trimSpaceL l) '}' = true → scanForward fuel (pre ++ l :: post) = none
  | _, _, _, 0, hlen, _, _, _ => absurd hlen (Nat.not_lt_zero _)
  | [], l, post, fuel + 1, _, _, hl, hb => by
    have hl2 : startsWithL (trimSpaceL l) ['f', 'o', 'r', 'w', 'a', 'r', 'd', ' ', '.'] = false := hl
    rw [List.nil_append, scanForward, if_neg (by simp [hl2]), if_pos hb]
  | p :: ps, l, post, fuel + 1, hlen, hpre, hl, hb => by
    have hp : startsWithL (trimSpaceL p) ("forward .".toList) = false := hpre p (by simp)
    rw [fwdLit] at hp
    rw [List.cons_append, scanForward, if_neg (by simp [hp])]
    by_cases hbp : hasCh (trimSpaceL p) '}' = true
    · rw [if_pos hbp]
    · rw [if_neg hbp]
      exact scanForward_brace ps l post fuel (by simp at hlen; omega)
        (fun x hx => hpre x (List.mem_cons_of_mem p hx)) hl hb

theorem scanForward_step (l : GoStr) (rest : List GoStr) (fuel : Nat)
    (h1 : isFwdLine l = false) (h2 : hasCh (trimSpaceL l) '}' = false) :
    scanForward (fuel + 1) (l :: rest) = scanForward fuel rest := by
  have h3 : startsWithL (trimSpaceL l) ['f', 'o', 'r', 'w', 'a', 'r', 'd', ' ', '.'] = false := h1
  rw [scanForward, if_neg (by simp [h3]), if_neg (by simp [h2])]

theorem scanForward_fwd (l : GoStr) (rest : List GoStr) (fuel : Nat) (ip : GoStr)
    (h : trimSpaceL l = "forward . ".toList ++ ip) (hip : ip ≠ []) (hw : wsFree ip) :
    scanForward (fuel + 1) (l :: rest) = some ip := by
  have e : "forward . ".toList ++ ip = "forward .".toList ++ (' ' :: ip) := by
    rw [show "forward . ".toList = "forward .".toList ++ [' '] by decide]
    simp
  have hs : startsWithL (trimSpaceL l) ("forward .".toList) = true := by
    rw [h, e]
    exact startsWith_append_self _ _
  rw [scanForward, if_pos hs, h, fields_forward_line ip hip hw]

theorem countCh_append (a b : GoStr) (c : Char) :
    countCh (a ++ b) c = countCh a c + countCh b c := List.count_append c a b

theorem countCh_cons_self (c : Char) (l : GoStr) :
    countCh (c :: l) c = countCh l c + 1 := by simp [countCh]

theorem dotFree_count (l : GoStr) (h : dotFree l) : countCh l '.' = 0 :=
  countCh_eq_zero l '.' (fun hm => h '.' hm rfl)

theorem countCh_sfx : countCh (".svc.cluster.local".toList) '.' = 3 := by decide

theorem not_endsWith_sfx (F : GoStr) (h : countCh F '.' ≤ 1) :
    endsWithL F (".svc.cluster.local".toList) = false := by
  apply endsWith_eq_false_of_count
  rw [countCh_sfx]
  omega

theorem countCh_fullName_le (svc ns : GoStr) (h1 : dotFree svc) (h2 : dotFree ns) :
    countCh (svc ++ '.' :: ns) '.' ≤ 1 := by
  rw [countCh_append, countCh_cons_self, dotFree_count svc h1, dotFree_count ns h2]

theorem ParseNameInput_wsFree_noSfx (F : GoStr) (hw : wsFree F)
    (hsf : endsWithL F (".svc.cluster.local".toList) = false) :
    ParseNameInput F =
      (match splitFirst '.' F with
       | some (a, b) => (a, b, false)
       | none => ([], F, false)) := by
  rw [ParseNameInput]
  simp only [trimSpace_wsFree F hw, hsf, Bool.false_eq_true, if_false]

theorem ParseNameInput_svcns (svc ns : GoStr) (h1 : wsFree svc) (h2 : wsFree ns)
    (h3 : dotFree svc) (h4 : dotFree ns) :
    ParseNameInput (svc ++ '.' :: ns) = (svc, ns, false) := by
  have hw : wsFree (svc ++ '.' :: ns) :=
    wsFree_append _ _ h1 (wsFree_cons '.' ns (by decide) h2)
  have hsf : endsWithL (svc ++ '.' :: ns) (".svc.cluster.local".toList) = false :=
    not_endsWith_sfx _ (countCh_fullName_le svc ns h3 h4)
  rw [ParseNameInput_wsFree_noSfx _ hw hsf,
    splitFirst_append '.' svc ns (fun hm => h3 '.' hm rfl)]

theorem ParseNameInput_nsonly (ns : GoStr) (h2 : wsFree ns) (h4 : dotFree ns) :
    ParseNameInput ns = ([], ns, false) := by
  have hsf : endsWithL ns (".svc.cluster.local".toList) = false :=
    not_endsWith_sfx ns (by rw [dotFree_count ns h4]; omega)
  rw [ParseNameInput_wsFree_noSfx ns h2 hsf, splitFirst_not_mem '.' ns (fun hm => h4 '.' hm rfl)]

theorem headerOfDomain_fqdn (F : GoStr) :
    headerOfDomain (F ++ ".svc.cluster.local".toList) =
      (if (ParseNameInput F).2.1 = [] then none
       else some ((ParseNameInput F).1, (ParseNameInput F).2.1, true)) := by
  have hno : ¬(F ++ ".svc.cluster.local".toList = [] ∨
      F ++ ".svc.cluster.local".toList = ['.'] ∨
      F ++ ".svc.cluster.local".toList = ("cluster.local".toList)) := by
    push_neg
    refine ⟨?_, ?_, ?_⟩ <;> intro h <;> have hlen := congrArg List.length h <;>
      simp [List.length_append] at hlen
  rw [headerOfDomain, if_neg hno]
  simp only [endsWith_append_self, if_true, trimSuffix_exact]

theorem headerOfDomain_svcns (svc ns : GoStr) (hns : ns ≠ [])
    (h3 : dotFree svc)
    (hne : svc ++ '.' :: ns ≠ ("cluster.local".toList))
    (hcount : countCh (svc ++ '.' :: ns) '.' ≤ 1) :
    headerOfDomain (svc ++ '.' :: ns) = some (svc, ns, false) := by
  have hno : ¬(svc ++ '.' :: ns = [] ∨ svc ++ '.' :: ns = ['.'] ∨
      svc ++ '.' :: ns = ("cluster.local".toList)) := by
    push_neg
    refine ⟨by simp, ?_, hne⟩
    intro h
    have hlen := congrArg List.length h
    simp [List.length_append] at hlen
    exact hns (List.length_eq_zero.mp (by omega))
  have hsf : endsWithL (svc ++ '.' :: ns) (".svc.cluster.local".toList) = false :=
    not_endsWith_sfx _ hcount
  rw [headerOfDomain, if_neg hno]
  simp only [hsf, Bool.false_eq_true, if_false,
    splitFirst_append '.' svc ns (fun hm => h3 '.' hm rfl)]
  simp [hns]

theorem headerOfDomain_nsonly (ns : GoStr) (hns : ns ≠ []) (h4 : dotFree ns) :
    headerOfDomain ns = some ([], ns, false) := by
  have hno : ¬(ns = [] ∨ ns = ['.'] ∨ ns = ("cluster.local".toList)) := by
    push_neg
    refine ⟨hns, ?_, ?_⟩
    · intro h
      exact h4 '.' (by rw [h]; simp) rfl
    · intro h
      exact h4 '.' (by rw [h]; decide) rfl
  have hsf : endsWithL ns (".svc.cluster.local".toList) = false :=
    not_endsWith_sfx ns (by rw [dotFree_count ns h4]; omega)
  rw [headerOfDomain, if_neg hno]
  simp only [hsf, Bool.false_eq_true, if_false,
    splitFirst_not_mem '.' ns (fun hm => h4 '.' hm rfl)]
  simp [hns]

theorem headerInfo_candidate (D : GoStr) (hD : D ≠ []) (hw : wsFree D) :
    headerInfo (D ++ ":53 ".toList ++ ['{']) = headerOfDomain D := by
  obtain ⟨d, D', rfl⟩ : ∃ d D', D = d :: D' := by
    cases D with
    | nil => exact absurd rfl hD
    | cons d D' => exact ⟨d, D', rfl⟩
  have hd : isSpaceGo d = false := hw d (by simp)
  have e : (d :: D') ++ ":53 ".toList ++ ['{'] = (d :: (D' ++ ":53 ".toList)) ++ ['{'] := by
    simp
  have e4 : (d :: D') ++ ":53 ".toList ++ ['{'] = ((d :: D') ++ ":53 ".toList) ++ ['{'] := by
    simp
  have hA : trimSpaceL ((d :: D') ++ ":53 ".toList ++ ['{'])
      = (d :: D') ++ ":53 ".toList ++ ['{'] := by
    rw [e]
    exact trimSpace_shape d '{' (D' ++ ":53 ".toList) hd (by decide)
  have hC : containsSub ((d :: D') ++ ":53 ".toList ++ ['{']) (":53".toList) = true := by
    have e3 : (d :: D') ++ ":53 ".toList ++ ['{']
        = (d :: D') ++ ((":53".toList) ++ ([' '] ++ ['{'])) := by
      rw [show ":53 ".toList = ":53".toList ++ [' '] from rfl]
      simp
    rw [e3]
    exact containsSub_append_right _ _ _ (containsSub_self_append _ _)
  have hE : endsWithL ((d :: D') ++ ":53 ".toList ++ ['{']) ['{'] = true := by
    rw [e4]
    exact endsWith_append_self _ _
  have t1 : trimSuffixL ((d :: D') ++ ":53 ".toList ++ ['{']) ['{']
      = (d :: D') ++ ":53 ".toList := by
    rw [e4]
    exact trimSuffix_exact _ _
  have t2 : trimSuffixL ((d :: D') ++ ":53 ".toList) [' '] = (d :: D') ++ ":53".toList := by
    rw [show (d :: D') ++ ":53 ".toList = ((d :: D') ++ ":53".toList) ++ [' '] from by
      rw [show ":53 ".toList = ":53".toList ++ [' '] from rfl]; simp]
    exact trimSuffix_exact _ _
  have t3 : trimSuffixL ((d :: D') ++ ":53".toList) (":53".toList) = d :: D' :=
    trimSuffix_exact _ _
  have t4 : trimSpaceL (d :: D') = d :: D' := trimSpace_wsFree _ hw
  have hB : domainPartOf (trimSpaceL ((d :: D') ++ ":53 ".toList ++ ['{'])) = d :: D' := by
    rw [hA, domainPartOf, t1, t2, t3, t4]
  rw [headerInfo, hB, if_pos (by rw [hA]; exact hC), if_pos (by rw [hA, hE]; simp)]

theorem headerInfo_none_of_ends (l : GoStr)
    (h1 : endsWithL (trimSpaceL l) ['{'] = false)
    (h2 : endsWithL (trimSpaceL l) ['{', ' '] = false) : headerInfo l = none := by
  rw [headerInfo]
  by_cases hc : containsSub (trimSpaceL l) (":53".toList) = true
  · rw [if_pos hc, if_neg (by simp [h1, h2])]
  · rw [if_neg hc]

theorem trimSpace_pad_shape (pad : GoStr) (c d : Char) (mid : GoStr)
    (hpad : ∀ x ∈ pad, isSpaceGo x = true) (hc : isSpaceGo c = false)
    (hd : isSpaceGo d = false) :
    trimSpaceL (pad ++ (c :: mid) ++ [d]) = (c :: mid) ++ [d] := by
  rw [List.append_assoc pad (c :: mid) [d], trimSpaceL, trimLeft_all_space pad hpad,
    show (c :: mid) ++ [d] = c :: (mid ++ [d]) by simp, trimLeft_cons_ns c _ hc,
    show c :: (mid ++ [d]) = (c :: mid) ++ [d] by simp]
  exact trimRight_concat_ns d (c :: mid) hd

theorem trim_fwd_line (ip : GoStr) (hip : ip ≠ []) (hw : wsFree ip) :
    trimSpaceL ("    forward . ".toList ++ ip) = "forward . ".toList ++ ip := by
  rcases List.eq_nil_or_concat ip with h | ⟨q, c, rfl⟩
  · exact absurd h hip
  · have hc : isSpaceGo c = false := hw c (by simp [List.concat_eq_append])
    have e : "    forward . ".toList ++ (q.concat c)
        = "    ".toList ++ ('f' :: ("orward . ".toList ++ q)) ++ [c] := by
      rw [show "    forward . ".toList = "    ".toList ++ 'f' :: "orward . ".toList from rfl]
      simp [List.concat_eq_append]
    rw [e, trimSpace_pad_shape ("    ".toList) 'f' c ("orward . ".toList ++ q)
      (by decide) (by decide) hc,
      show ('f' :: ("orward . ".toList ++ q)) ++ [c] = "forward . ".toList ++ (q.concat c) from by
        rw [show "forward . ".toList = 'f' :: "orward . ".toList from rfl]
        simp [List.concat_eq_append]]

theorem splitLines_block_fqdn (F ip : GoStr) (hF : wsFree F) (hip : wsFree ip) :
    splitLines (F ++ ".svc.cluster.local:53 ".toList ++ '{' :: '\n' ::
        "    forward . ".toList ++ ip ++ ['\n', '}'])
      = [F ++ ".svc.cluster.local:53 ".toList ++ ['{'],
         "    forward . ".toList ++ ip, ['}']] := by
  have h0 : '\n' ∉ F ++ ".svc.cluster.local:53 ".toList ++ ['{'] :=
    not_mem_append _ _ _
      (not_mem_append _ _ _ (nl_not_mem_of_wsFree F hF) (by decide)) (by decide)
  have h1 : '\n' ∉ "    forward . ".toList ++ ip :=
    not_mem_append _ _ _ (by decide) (nl_not_mem_of_wsFree ip hip)
  have e : F ++ ".svc.cluster.local:53 ".toList ++ '{' :: '\n' ::
        "    forward . ".toList ++ ip ++ ['\n', '}']
      = (F ++ ".svc.cluster.local:53 ".toList ++ ['{']) ++ '\n' ::
        (("    forward . ".toList ++ ip) ++ '\n' :: ['}']) := by
    simp
  rw [e, splitLines_append _ _ h0, splitLines_append _ _ h1,
    splitLines_no_nl ['}'] (by decide)]

theorem splitLines_block_rewrite (F ip rewLit : GoStr) (hF : wsFree F) (hip : wsFree ip)
    (hrew : '\n' ∉ rewLit) :
    splitLines (F ++ ":53 ".toList ++ '{' :: '\n' ::
        rewLit ++ F ++ ' ' :: (F ++ ".svc.cluster.local. answer auto".toList) ++ '\n' ::
        "    forward . ".toList ++ ip ++ ['\n', '}'])
      = [F ++ ":53 ".toList ++ ['{'],
         rewLit ++ F ++ ' ' :: (F ++ ".svc.cluster.local. answer auto".toList),
         "    forward . ".toList ++ ip, ['}']] := by
  have h0 : '\n' ∉ F ++ ":53 ".toList ++ ['{'] :=
    not_mem_append _ _ _
      (not_mem_append _ _ _ (nl_not_mem_of_wsFree F hF) (by decide)) (by decide)
  have h1 : '\n' ∉ rewLit ++ F ++ ' ' :: (F ++ ".svc.cluster.local. answer auto".toList) :=
    not_mem_append _ _ _ (not_mem_append _ _ _ hrew (nl_not_mem_of_wsFree F hF))
      (not_mem_cons _ _ _ (by decide)
        (not_mem_append _ _ _ (nl_not_mem_of_wsFree F hF) (by decide)))
  have h2 : '\n' ∉ "    forward . ".toList ++ ip :=
    not_mem_append _ _ _ (by decide) (nl_not_mem_of_wsFree ip hip)
  have e : F ++ ":53 ".toList ++ '{' :: '\n' ::
        rewLit ++ F ++ ' ' :: (F ++ ".svc.cluster.local. answer auto".toList) ++ '\n' ::
        "    forward . ".toList ++ ip ++ ['\n', '}']
      = (F ++ ":53 ".toList ++ ['{']) ++ '\n' ::
        ((rewLit ++ F ++ ' ' :: (F ++ ".svc.cluster.local. answer auto".toList)) ++ '\n' ::
          (("    forward . ".toList ++ ip) ++ '\n' :: ['}'])) := by
    simp
  rw [e, splitLines_append _ _ h0, splitLines_append _ _ h1, splitLines_append _ _ h2,
    splitLines_no_nl ['}'] (by decide)]

theorem rew_line_all (rewLit coreTail F : GoStr)
    (hshape : rewLit = "    ".toList ++ 'r' :: coreTail)
    (hFb : '}' ∉ F) (hct : '}' ∉ coreTail) :
    headerInfo (rewLit ++ F ++ ' ' :: (F ++ ".svc.cluster.local. answer auto".toList)) = none ∧
    isFwdLine (rewLit ++ F ++ ' ' :: (F ++ ".svc.cluster.local. answer auto".toList)) = false ∧
    hasCh (trimSpaceL (rewLit ++ F ++ ' ' ::
      (F ++ ".svc.cluster.local. answer auto".toList))) '}' = false := by
  subst hshape
  have eassoc : ("    ".toList ++ 'r' :: coreTail) ++ F ++ ' ' ::
      (F ++ ".svc.cluster.local. answer auto".toList)
      = "    ".toList ++ ('r' :: (coreTail ++ F ++ ' ' ::
          (F ++ ".svc.cluster.local. answer aut".toList))) ++ ['o'] := by
    rw [show ".svc.cluster.local. answer auto".toList
        = ".svc.cluster.local. answer aut".toList ++ ['o'] from rfl]
    simp
  have htrim : trimSpaceL (("    ".toList ++ 'r' :: coreTail) ++ F ++ ' ' ::
      (F ++ ".svc.cluster.local. answer auto".toList))
      = ('r' :: (coreTail ++ F ++ ' ' ::
          (F ++ ".svc.cluster.local. answer aut".toList))) ++ ['o'] := by
    rw [eassoc]
    exact trimSpace_pad_shape ("    ".toList) 'r' 'o' _ (by decide) (by decide) (by decide)
  refine ⟨?_, ?_, ?_⟩
  · apply headerInfo_none_of_ends
    · rw [htrim]
      exact endsWith_last_ne _ [] 'o' '{' (by decide)
    · rw [htrim]
      exact endsWith_last_ne _ ['{'] 'o' ' ' (by decide)
  · rw [isFwdLine, htrim]
    rw [show ('r' :: (coreTail ++ F ++ ' ' ::
        (F ++ ".svc.cluster.local. answer aut".toList))) ++ ['o']
        = 'r' :: ((coreTail ++ F ++ ' ' ::
          (F ++ ".svc.cluster.local. answer aut".toList)) ++ ['o']) by simp,
      show "forward .".toList = 'f' :: "orward .".toList from rfl]
    exact startsWith_cons_ne 'r' 'f' _ _ (by decide)
  · rw [htrim, hasCh_eq_false_iff]
    apply not_mem_append
    · apply not_mem_cons _ _ _ (by decide)
      apply not_mem_append
      · apply not_mem_append _ _ _ hct hFb
      · apply not_mem_cons _ _ _ (by decide)
        exact not_mem_append _ _ _ hFb (by decide)
    · decide

theorem headerInfo_fqdn_svc (svc ns : GoStr) (hns : ns ≠ [])
    (h1 : wsFree svc) (h2 : wsFree ns) (h3 : dotFree svc) (h4 : dotFree ns) :
    headerInfo ((svc ++ '.' :: ns) ++ ".svc.cluster.local:53 ".toList ++ ['{'])
      = some (svc, ns, true) := by
  have hD : (svc ++ '.' :: ns) ++ ".svc.cluster.local".toList ≠ [] :=
    fun h => absurd (List.append_eq_nil.mp h).2 (by decide)
  have hDw : wsFree ((svc ++ '.' :: ns) ++ ".svc.cluster.local".toList) :=
    wsFree_append _ _ (wsFree_append _ _ h1 (wsFree_cons '.' ns (by decide) h2)) (by decide)
  have e0 : (svc ++ '.' :: ns) ++ ".svc.cluster.local:53 ".toList ++ ['{']
      = ((svc ++ '.' :: ns) ++ ".svc.cluster.local".toList) ++ ":53 ".toList ++ ['{'] := by
    rw [show ".svc.cluster.local:53 ".toList
        = ".svc.cluster.local".toList ++ ":53 ".toList from rfl]
    simp
  rw [e0, headerInfo_candidate _ hD hDw, headerOfDomain_fqdn,
    ParseNameInput_svcns svc ns h1 h2 h3 h4]
  simp [hns]

theorem headerInfo_fqdn_ns (ns : GoStr) (hns : ns ≠ [])
    (h2 : wsFree ns) (h4 : dotFree ns) :
    headerInfo (ns ++ ".svc.cluster.local:53 ".toList ++ ['{'])
      = some ([], ns, true) := by
  have hD : ns ++ ".svc.cluster.local".toList ≠ [] :=
    fun h => absurd (List.append_eq_nil.mp h).2 (by decide)
  have hDw : wsFree (ns ++ ".svc.cluster.local".toList) :=
    wsFree_append _ _ h2 (by decide)
  have e0 : ns ++ ".svc.cluster.local:53 ".toList ++ ['{']
      = (ns ++ ".svc.cluster.local".toList) ++ ":53 ".toList ++ ['{'] := by
    rw [show ".svc.cluster.local:53 ".toList
        = ".svc.cluster.local".toList ++ ":53 ".toList from rfl]
    simp
  rw [e0, headerInfo_candidate _ hD hDw, headerOfDomain_fqdn,
    ParseNameInput_nsonly ns h2 h4]
  simp [hns]

theorem headerInfo_short_svc (svc ns : GoStr) (hns : ns ≠ [])
    (h1 : wsFree svc) (h2 : wsFree ns) (h3 : dotFree svc) (h4 : dotFree ns)
    (hne : svc ++ '.' :: ns ≠ ("cluster.local".toList)) :
    headerInfo ((svc ++ '.' :: ns) ++ ":53 ".toList ++ ['{'])
      = some (svc, ns, false) := by
  have hD : svc ++ '.' :: ns ≠ [] :=
    fun h => absurd (List.append_eq_nil.mp h).2 (List.cons_ne_nil '.' ns)
  have hDw : wsFree (svc ++ '.' :: ns) :=
    wsFree_append _ _ h1 (wsFree_cons '.' ns (by decide) h2)
  rw [headerInfo_candidate _ hD hDw,
    headerOfDomain_svcns svc ns hns h3 hne (countCh_fullName_le svc ns h3 h4)]

theorem headerInfo_short_ns (ns : GoStr) (hns : ns ≠ [])
    (h2 : wsFree ns) (h4 : dotFree ns) :
    headerInfo (ns ++ ":53 ".toList ++ ['{']) = some ([], ns, false) := by
  rw [headerInfo_candidate ns hns h2, headerOfDomain_nsonly ns hns h4]

/-- C1 (amended): parsing the configuration consisting solely of a rendered
rule block yields exactly that rule, for tokens of the stated shape, provided
additionally that (for the non-FQDN shapes) no closing brace occurs in the
namespace or service name and the full name is not the excluded root zone
`cluster.local`. -/
theorem roundTrip_amended (r : ForwardRule)
    (hns : r.Namespace ≠ []) (hnw : wsFree r.Namespace) (hnd : dotFree r.Namespace)
    (hsw : wsFree r.ServiceName) (hsd : dotFree r.ServiceName)
    (hip : r.TargetIP ≠ []) (hiw : wsFree r.TargetIP)
    (hq : r.IsFullFQDN = false → '}' ∉ r.Namespace ∧ '}' ∉ r.ServiceName ∧
      GetFullName r ≠ ("cluster.local".toList)) :
    parseForwardRules (ToCorefile r) = [r] := by
  cases hf : r.IsFullFQDN with
  | true =>
    by_cases hs : r.ServiceName = []
    · have hF : GetFullName r = r.Namespace := by
        rw [GetFullName, if_neg (by simp [hs])]
      rw [parseForwardRules, ToCorefile, if_pos hf, hF,
        splitLines_block_fqdn r.Namespace r.TargetIP hnw hiw,
        parse_cons_some _ _ [] r.Namespace r.TargetIP true
          (headerInfo_fqdn_ns r.Namespace hns hnw hnd)
          (scanForward_fwd _ _ 8 r.TargetIP (trim_fwd_line r.TargetIP hip hiw) hip hiw),
        parse_cons_of_scan_none _ _ (by decide),
        show parseForwardRulesLines [(['}'] : GoStr)] = [] from by decide,
        ← hs, ← hf]
    · have hF : GetFullName r = r.ServiceName ++ '.' :: r.Namespace := by
        rw [GetFullName, if_pos hs]
      have hFw : wsFree (r.ServiceName ++ '.' :: r.Namespace) :=
        wsFree_append _ _ hsw (wsFree_cons '.' _ (by decide) hnw)
      rw [parseForwardRules, ToCorefile, if_pos hf, hF,
        splitLines_block_fqdn _ r.TargetIP hFw hiw,
        parse_cons_some _ _ r.ServiceName r.Namespace r.TargetIP true
          (headerInfo_fqdn_svc r.ServiceName r.Namespace hns hsw hnw hsd hnd)
          (scanForward_fwd _ _ 8 r.TargetIP (trim_fwd_line r.TargetIP hip hiw) hip hiw),
        parse_cons_of_scan_none _ _ (by decide),
        show parseForwardRulesLines [(['}'] : GoStr)] = [] from by decide,
        ← hf]
  | false =>
    obtain ⟨hbn, hbs, hcl⟩ := hq hf
    by_cases hs : r.ServiceName = []
    · have hF2 : GetFullName r = r.Namespace := by
        rw [GetFullName, if_neg (by simp [hs])]
      obtain ⟨hrh, hrf, hrb⟩ := rew_line_all ("    rewrite name regex (.*)\\.".toList)
        ("ewrite name regex (.*)\\.".toList) r.Namespace rfl hbn (by decide)
      rw [parseForwardRules, ToCorefile, if_neg (by simp [hf]), if_neg (by simp [hs]),
        splitLines_block_rewrite r.Namespace r.TargetIP _ hnw hiw (by decide),
        parse_cons_some _ _ [] r.Namespace r.TargetIP false
          (headerInfo_short_ns r.Namespace hns hnw hnd)
          (by rw [scanForward_step _ _ 8 hrf hrb]
              exact scanForward_fwd _ _ 7 r.TargetIP (trim_fwd_line r.TargetIP hip hiw) hip hiw),
        parse_cons_of_header_none _ _ hrh,
        parse_cons_of_scan_none _ _ (by decide),
        show parseForwardRulesLines [(['}'] : GoStr)] = [] from by decide,
        ← hs, ← hf]
    · have hF : GetFullName r = r.ServiceName ++ '.' :: r.Namespace := by
        rw [GetFullName, if_pos hs]
      have hFw : wsFree (r.ServiceName ++ '.' :: r.Namespace) :=
        wsFree_append _ _ hsw (wsFree_cons '.' _ (by decide) hnw)
      have hFb : '}' ∉ r.ServiceName ++ '.' :: r.Namespace :=
        not_mem_append _ _ _ hbs (not_mem_cons _ _ _ (by decide) hbn)
      rw [hF] at hcl
      obtain ⟨hrh, hrf, hrb⟩ := rew_line_all ("    rewrite name exact ".toList)
        ("ewrite name exact ".toList) (r.ServiceName ++ '.' :: r.Namespace) rfl hFb (by decide)
      rw [parseForwardRules, ToCorefile, if_neg (by simp [hf]), if_pos hs, hF,
        splitLines_block_rewrite _ r.TargetIP _ hFw hiw (by decide),
        parse_cons_some _ _ r.ServiceName r.Namespace r.TargetIP false
          (headerInfo_short_svc r.ServiceName r.Namespace hns hsw hnw hsd hnd hcl)
          (by rw [scanForward_step _ _ 8 hrf hrb]
              exact scanForward_fwd _ _ 7 r.TargetIP (trim_fwd_line r.TargetIP hip hiw) hip hiw),
        parse_cons_of_header_none _ _ hrh,
        parse_cons_of_scan_none _ _ (by decide),
        show parseForwardRulesLines [(['}'] : GoStr)] = [] from by decide,
        ← hf]

/-- C1 counterexample: the rule with serviceName `cluster`, namespace `local`
satisfies every token condition of the claim, yet its rendered block parses
back to the empty rule list (its header is the excluded `cluster.local:53`
root zone), so the round trip fails as originally stated. -/
theorem roundTrip_counterexample :
    (⟨"local".toList, "cluster".toList, "10.96.0.10".toList, false⟩ :
        ForwardRule).Namespace ≠ [] ∧
    wsFree ("local".toList) ∧ dotFree ("local".toList) ∧
    wsFree ("cluster".toList) ∧ dotFree ("cluster".toList) ∧
    ("10.96.0.10".toList : GoStr) ≠ [] ∧ wsFree ("10.96.0.10".toList) ∧
    parseForwardRules (ToCorefile
      ⟨"local".toList, "cluster".toList, "10.96.0.10".toList, false⟩) = [] ∧
    parseForwardRules (ToCorefile
        ⟨"local".toList, "cluster".toList, "10.96.0.10".toList, false⟩)
      ≠ [⟨"local".toList, "cluster".toList, "10.96.0.10".toList, false⟩] := by
  decide

/-- Witness for the amended round trip at a concrete FQDN rule. -/
theorem roundTrip_amended_witness :
    parseForwardRules (ToCorefile ⟨"prod".toList, [], "10.96.0.10".toList, true⟩)
      = [⟨"prod".toList, [], "10.96.0.10".toList, true⟩] :=
  roundTrip_amended ⟨"prod".toList, [], "10.96.0.10".toList, true⟩
    (by decide) (by decide) (by decide) (by decide) (by decide)
    (by decide) (by decide) (by decide)

/-- C5: a candidate header line whose extracted domain part is empty, `.`,
or exactly `cluster.local` contributes no parsed rule. -/
theorem domainExclusion (line : GoStr) (rest : List GoStr)
    (h : domainPartOf (trimSpaceL line) = [] ∨ domainPartOf (trimSpaceL line) = ['.'] ∨
      domainPartOf (trimSpaceL line) = ("cluster.local".toList)) :
    parseForwardRulesLines (line :: rest) = parseForwardRulesLines rest := by
  apply parse_cons_of_header_none
  rw [headerInfo]
  by_cases hc : containsSub (trimSpaceL line) (":53".toList) = true
  · rw [if_pos hc]
    by_cases he : (endsWithL (trimSpaceL line) ['{']
        || endsWithL (trimSpaceL line) ['{', ' ']) = true
    · rw [if_pos he, headerOfDomain, if_pos h]
    · rw [if_neg he]
  · rw [if_neg hc]

/-- Witness for domain exclusion: a `.:53` block and a `cluster.local:53`
block yield zero rules even though both carry a `forward .` directive. -/
theorem domainExclusion_witness :
    (domainPartOf (trimSpaceL (".:53 ".toList ++ ['{'])) = [] ∨
      domainPartOf (trimSpaceL (".:53 ".toList ++ ['{'])) = ['.'] ∨
      domainPartOf (trimSpaceL (".:53 ".toList ++ ['{'])) = ("cluster.local".toList)) ∧
    parseForwardRulesLines ((".:53 ".toList ++ ['{']) ::
        ["    forward . 1.2.3.4".toList, ['}']])
      = parseForwardRulesLines ["    forward . 1.2.3.4".toList, ['}']] ∧
    parseForwardRules (joinLines [".:53 ".toList ++ ['{'], "    forward . 1.2.3.4".toList,
      ['}'], "cluster.local:53 ".toList ++ ['{'], "    forward . 1.2.3.4".toList, ['}']])
      = [] :=
  ⟨by decide, domainExclusion _ _ (by decide), by decide⟩

/-- C6: a `forward .` directive more than nine lines beyond its header, or
preceded within the window by a line containing a closing brace, is not
attributed to that header, which then yields no rule. -/
theorem lookaheadBound (line : GoStr) (rest : List GoStr)
    (h : (∀ l ∈ rest.take 9, isFwdLine l = false) ∨
      ∃ pre l post, rest = pre ++ l :: post ∧ pre.length < 9 ∧
        (∀ x ∈ pre, isFwdLine x = false) ∧ isFwdLine l = false ∧
        hasCh (trimSpaceL l) '}' = true) :
    parseForwardRulesLines (line :: rest) = parseForwardRulesLines rest := by
  apply parse_cons_of_scan_none
  rcases h with h | ⟨pre, l, post, rfl, hlen, hpre, hl, hb⟩
  · exact scanForward_no_fwd 9 rest h
  · exact scanForward_brace pre l post 9 hlen hpre hl hb

/-- Witness for the lookahead bound: a `forward .` line ten lines after the
header is ignored. -/
theorem lookaheadBound_witness :
    parseForwardRulesLines (("x:53 ".toList ++ ['{']) ::
        [ "a".toList, "b".toList, "c".toList, "d".toList, "e".toList,
          "f".toList, "g".toList, "h".toList, "i".toList,
          "    forward . 1.2.3.4".toList ])
      = parseForwardRulesLines
        [ "a".toList, "b".toList, "c".toList, "d".toList, "e".toList,
          "f".toList, "g".toList, "h".toList, "i".toList,
          "    forward . 1.2.3.4".toList ] :=
  lookaheadBound _ _ (Or.inl (by decide))

theorem splitFirst_sound (sep : Char) : ∀ (l a b : GoStr),
    splitFirst sep l = some (a, b) → l = a ++ sep :: b ∧ sep ∉ a
  | [], a, b, h => by simp [splitFirst] at h
  | c :: cs, a, b, h => by
    rw [splitFirst] at h
    by_cases hc : c = sep
    · rw [if_pos hc] at h
      have h2 := Option.some.inj h
      have ha : ([] : GoStr) = a := congrArg Prod.fst h2
      have hb : cs = b := congrArg Prod.snd h2
      subst hc
      rw [← ha, ← hb]
      exact ⟨by simp, by simp⟩
    · rw [if_neg hc] at h
      cases hsf : splitFirst sep cs with
      | none => rw [hsf] at h; exact absurd h (by simp)
      | some p =>
        obtain ⟨a2, b2⟩ := p
        rw [hsf] at h
        have h2 := Option.some.inj h
        have ha : c :: a2 = a := congrArg Prod.fst h2
        have hb : b2 = b := congrArg Prod.snd h2
        obtain ⟨hl, hm⟩ := splitFirst_sound sep cs a2 b2 hsf
        rw [← ha, ← hb]
        exact ⟨by rw [List.cons_append, ← hl],
          not_mem_cons _ _ _ (fun hh => hc hh.symm) hm⟩

theorem splitFirst_none_sound (sep : Char) : ∀ (l : GoStr),
    splitFirst sep l = none → sep ∉ l
  | [], _ => by simp
  | c :: cs, h => by
    rw [splitFirst] at h
    by_cases hc : c = sep
    · rw [if_pos hc] at h
      exact absurd h (by simp)
    · rw [if_neg hc] at h
      cases hsf : splitFirst sep cs with
      | none =>
        exact not_mem_cons _ _ _ (fun hh => hc hh.symm) (splitFirst_none_sound sep cs hsf)
      | some p => rw [hsf] at h; exact absurd h (by simp)

/-- C7: `ParseNameInput` trims surrounding whitespace, strips a trailing
`.svc.cluster.local` (setting the FQDN flag exactly when present), and then
splits the remainder at the first dot: two parts give service and namespace,
one part is the namespace with an empty service name. -/
theorem parseNameInput_spec (input : GoStr) :
    (ParseNameInput input).2.2
        = endsWithL (trimSpaceL input) (".svc.cluster.local".toList) ∧
    ((∃ a b, (if endsWithL (trimSpaceL input) (".svc.cluster.local".toList)
          then trimSuffixL (trimSpaceL input) (".svc.cluster.local".toList)
          else trimSpaceL input) = a ++ '.' :: b ∧ '.' ∉ a ∧
        ParseNameInput input = (a, b, (ParseNameInput input).2.2)) ∨
      ('.' ∉ (if endsWithL (trimSpaceL input) (".svc.cluster.local".toList)
          then trimSuffixL (trimSpaceL input) (".svc.cluster.local".toList)
          else trimSpaceL input) ∧
        ParseNameInput input
          = ([], (if endsWithL (trimSpaceL input) (".svc.cluster.local".toList)
              then trimSuffixL (trimSpaceL input) (".svc.cluster.local".toList)
              else trimSpaceL input), (ParseNameInput input).2.2))) := by
  have base : ParseNameInput input =
      (match splitFirst '.' (if endsWithL (trimSpaceL input) (".svc.cluster.local".toList)
          then trimSuffixL (trimSpaceL input) (".svc.cluster.local".toList)
          else trimSpaceL input) with
       | some (a, b) => (a, b, endsWithL (trimSpaceL input) (".svc.cluster.local".toList))
       | none => ([], (if endsWithL (trimSpaceL input) (".svc.cluster.local".toList)
            then trimSuffixL (trimSpaceL input) (".svc.cluster.local".toList)
            else trimSpaceL input),
          endsWithL (trimSpaceL input) (".svc.cluster.local".toList))) := rfl
  cases hsp : splitFirst '.' (if endsWithL (trimSpaceL input) (".svc.cluster.local".toList)
      then trimSuffixL (trimSpaceL input) (".svc.cluster.local".toList)
      else trimSpaceL input) with
  | none =>
    rw [base, hsp]
    exact ⟨rfl, Or.inr ⟨splitFirst_none_sound '.' _ hsp, rfl⟩⟩
  | some p =>
    obtain ⟨a, b⟩ := p
    rw [base, hsp]
    obtain ⟨hl, hm⟩ := splitFirst_sound '.' _ a b hsp
    exact ⟨rfl, Or.inl ⟨a, b, hl, hm, rfl⟩⟩

/-- C8: `ToCorefile` renders exactly one of the three literal block shapes,
selected by the rule's shape, with the full name spelled out, four-space
indented body lines and a closing brace. -/
theorem toCorefile_rendering (r : ForwardRule) :
    ToCorefile r =
      (if r.IsFullFQDN then
        (if r.ServiceName ≠ [] then r.ServiceName ++ '.' :: r.Namespace else r.Namespace) ++
          ".svc.cluster.local:53 ".toList ++ '{' :: '\n' ::
          "    forward . ".toList ++ r.TargetIP ++ ['\n', '}']
      else if r.ServiceName ≠ [] then
        (r.ServiceName ++ '.' :: r.Namespace) ++ ":53 ".toList ++ '{' :: '\n' ::
          "    rewrite name exact ".toList ++ (r.ServiceName ++ '.' :: r.Namespace) ++ ' ' ::
          ((r.ServiceName ++ '.' :: r.Namespace) ++
            ".svc.cluster.local. answer auto".toList) ++ '\n' ::
          "    forward . ".toList ++ r.TargetIP ++ ['\n', '}']
      else
        r.Namespace ++ ":53 ".toList ++ '{' :: '\n' ::
          "    rewrite name regex (.*)\\.".toList ++ r.Namespace ++ ' ' ::
          (r.Namespace ++ ".svc.cluster.local. answer auto".toList) ++ '\n' ::
          "    forward . ".toList ++ r.TargetIP ++ ['\n', '}']) := by
  by_cases hf : r.IsFullFQDN <;> by_cases hs : r.ServiceName = [] <;>
    simp [ToCorefile, GetFullName, hf, hs]

theorem deleteLoop_copy (rb : GoStr) : ∀ (xs rest : List GoStr) (n : Int),
    (∀ l ∈ xs, startsWithL (trimSpaceL l) rb = false) →
    deleteLoop rb (xs ++ rest) false n = xs ++ deleteLoop rb rest false n
  | [], _, _, _ => rfl
  | l :: xs2, rest, n, h => by
    have hl : startsWithL (trimSpaceL l) rb = false := h l (by simp)
    rw [List.cons_append, deleteLoop, if_neg (by simp [hl]),
      deleteLoop_copy rb xs2 rest n (fun x hx => h x (List.mem_cons_of_mem l hx)),
      List.cons_append]

theorem deleteLoop_all_copy (rb : GoStr) (xs : List GoStr) (n : Int)
    (h : ∀ l ∈ xs, startsWithL (trimSpaceL l) rb = false) :
    deleteLoop rb xs false n = xs := by
  have h2 := deleteLoop_copy rb xs [] n h
  simpa [show deleteLoop rb [] false n = [] from rfl] using h2

theorem deleteLoop_mid (rb : GoStr) : ∀ (mid rest : List GoStr) (n : Int), n ≤ 1 →
    (∀ l ∈ mid, hasCh l '}' = false ∧ countCh l '{' = 0) →
    ∃ m : Int, m ≤ 1 ∧ deleteLoop rb (mid ++ rest) true n = deleteLoop rb rest true m
  | [], rest, n, hn, _ => ⟨n, hn, rfl⟩
  | l :: mid2, rest, n, hn, h => by
    obtain ⟨hbr, hop⟩ := h l (by simp)
    have hbc : countCh l '}' = 0 :=
      List.count_eq_zero.mpr ((hasCh_eq_false_iff l '}').mp hbr)
    have hrest : ∀ x ∈ mid2, hasCh x '}' = false ∧ countCh x '{' = 0 :=
      fun x hx => h x (List.mem_cons_of_mem l hx)
    rw [List.cons_append, deleteLoop]
    have hend : ¬(((if startsWithL (trimSpaceL l) rb then (0 : Int) else n) +
        (countCh l '{' : Int) - (countCh l '}' : Int)) ≤ 0 ∧ hasCh l '}' = true) := by
      rintro ⟨_, hh⟩
      rw [hbr] at hh
      exact Bool.false_ne_true hh
    by_cases hm : startsWithL (trimSpaceL l) rb = true
    · rw [if_pos (by simp [hm]), if_neg hend]
      have harg : (if startsWithL (trimSpaceL l) rb then (0 : Int) else n) +
          (countCh l '{' : Int) - (countCh l '}' : Int) = 0 := by
        rw [if_pos hm, hop, hbc]
        simp
      rw [harg]
      exact deleteLoop_mid rb mid2 rest 0 (by omega) hrest
    · have hm2 : startsWithL (trimSpaceL l) rb = false := by
        cases hv : startsWithL (trimSpaceL l) rb
        · rfl
        · exact absurd hv hm
      rw [if_pos (by simp), if_neg hend]
      have harg : (if startsWithL (trimSpaceL l) rb then (0 : Int) else n) +
          (countCh l '{' : Int) - (countCh l '}' : Int) = n := by
        rw [if_neg (by simp [hm2]), hop, hbc]
        simp
      rw [harg]
      exact deleteLoop_mid rb mid2 rest n hn hrest

theorem deleteLoop_block (rb H Z : GoStr) (mid rest : List GoStr) (sb : Bool) (n : Int)
    (hH : startsWithL (trimSpaceL H) rb = true)
    (hHo : countCh H '{' = 1) (hHc : countCh H '}' = 0)
    (hmid : ∀ l ∈ mid, hasCh l '}' = false ∧ countCh l '{' = 0)
    (hZm : startsWithL (trimSpaceL Z) rb = false)
    (hZo : countCh Z '{' = 0) (hZc : hasCh Z '}' = true) (hZc1 : countCh Z '}' = 1) :
    ∃ m : Int, deleteLoop rb ((H :: mid ++ [Z]) ++ rest) sb n
      = deleteLoop rb rest false m := by
  have hHbr : hasCh H '}' = false :=
    (hasCh_eq_false_iff H '}').mpr (List.count_eq_zero.mp hHc)
  have hHend : ¬(((if startsWithL (trimSpaceL H) rb then (0 : Int) else n) +
      (countCh H '{' : Int) - (countCh H '}' : Int)) ≤ 0 ∧ hasCh H '}' = true) := by
    rintro ⟨_, hh⟩
    rw [hHbr] at hh
    exact Bool.false_ne_true hh
  rw [show ((H :: mid ++ [Z]) ++ rest : List GoStr) = H :: ((mid ++ [Z]) ++ rest) by simp,
    deleteLoop, if_pos (by simp [hH]), if_neg hHend]
  have harg : (if startsWithL (trimSpaceL H) rb then (0 : Int) else n) +
      (countCh H '{' : Int) - (countCh H '}' : Int) = 1 := by
    rw [if_pos hH, hHo, hHc]
    simp
  rw [harg, show (mid ++ [Z]) ++ rest = mid ++ ([Z] ++ rest) by simp]
  obtain ⟨m, hm1, hm2⟩ := deleteLoop_mid rb mid ([Z] ++ rest) 1 (by omega) hmid
  refine ⟨(if startsWithL (trimSpaceL Z) rb then (0 : Int) else m) +
      (countCh Z '{' : Int) - (countCh Z '}' : Int), ?_⟩
  rw [hm2, show ([Z] ++ rest : List GoStr) = Z :: rest by simp, deleteLoop,
    if_pos (by simp),
    if_pos ⟨by rw [if_neg (by simp [hZm]), hZo, hZc1]; omega, hZc⟩]

theorem splitLines_nl_free : ∀ (s : GoStr), ∀ l ∈ splitLines s, '\n' ∉ l
  | [] => by simp [splitLines]
  | c :: cs => by
    intro l hl
    rw [splitLines] at hl
    by_cases hc : c = '\n'
    · rw [if_pos hc] at hl
      rcases List.mem_cons.mp hl with h | h
      · subst h; simp
      · exact splitLines_nl_free cs l h
    · rw [if_neg hc] at hl
      cases hs : splitLines cs with
      | nil => exact absurd hs (splitLines_ne_nil cs)
      | cons l2 ls2 =>
        rw [hs] at hl
        rcases List.mem_cons.mp hl with h | h
        · subst h
          intro hm
          rcases List.mem_cons.mp hm with h2 | h2
          · exact hc h2.symm
          · exact splitLines_nl_free cs l2 (by rw [hs]; simp) h2
        · exact splitLines_nl_free cs l (by rw [hs]; exact List.mem_cons_of_mem l2 h) 

theorem trim_header (D lit : GoStr) (hD : D ≠ []) (hw : wsFree D) :
    trimSpaceL (D ++ lit ++ ['{']) = D ++ lit ++ ['{'] := by
  obtain ⟨d, D2, rfl⟩ : ∃ d D2, D = d :: D2 := by
    cases D with
    | nil => exact absurd rfl hD
    | cons d D2 => exact ⟨d, D2, rfl⟩
  have e : (d :: D2) ++ lit ++ ['{'] = (d :: (D2 ++ lit)) ++ ['{'] := by simp
  rw [e]
  exact trimSpace_shape d '{' _ (hw d (by simp)) (by decide)

theorem deleteTargetBlock_eq (r : ForwardRule)
    (hnw : wsFree r.Namespace) (hnd : dotFree r.Namespace)
    (hsw : wsFree r.ServiceName) (hsd : dotFree r.ServiceName) :
    deleteTargetBlock (GetFullName r) r.IsFullFQDN
      = GetFullName r ++ (if r.IsFullFQDN then ".svc.cluster.local:53".toList
          else ":53".toList) := by
  by_cases hs : r.ServiceName = []
  · have hF : GetFullName r = r.Namespace := by rw [GetFullName, if_neg (by simp [hs])]
    rw [hF, deleteTargetBlock]
    simp only [ParseNameInput_nsonly r.Namespace hnw hnd]
    by_cases hf : r.IsFullFQDN <;> simp [hf]
  · have hF : GetFullName r = r.ServiceName ++ '.' :: r.Namespace := by
      rw [GetFullName, if_pos hs]
    rw [hF, deleteTargetBlock]
    simp only [ParseNameInput_svcns r.ServiceName r.Namespace hsw hnw hsd hnd]
    by_cases hf : r.IsFullFQDN <;> simp [hf, hs]

theorem rendered_block_shape (r : ForwardRule)
    (hns : r.Namespace ≠ []) (hnw : wsFree r.Namespace) (hnd : dotFree r.Namespace)
    (hsw : wsFree r.ServiceName) (hsd : dotFree r.ServiceName)
    (hiw : wsFree r.TargetIP)
    (hn1 : '{' ∉ r.Namespace) (hn2 : '}' ∉ r.Namespace)
    (hs1 : '{' ∉ r.ServiceName) (hs2 : '}' ∉ r.ServiceName)
    (hi1 : '{' ∉ r.TargetIP) (hi2 : '}' ∉ r.TargetIP) :
    ∃ H mid, splitLines (ToCorefile r) = H :: mid ++ [(['}'] : GoStr)] ∧
      startsWithL (trimSpaceL H) (deleteTargetBlock (GetFullName r) r.IsFullFQDN) = true ∧
      countCh H '{' = 1 ∧ countCh H '}' = 0 ∧
      (∀ l ∈ mid, hasCh l '}' = false ∧ countCh l '{' = 0) ∧
      1 < (deleteTargetBlock (GetFullName r) r.IsFullFQDN).length := by
  have hFw : wsFree (GetFullName r) := by
    rw [GetFullName]
    split
    · exact wsFree_append _ _ hsw (wsFree_cons '.' _ (by decide) hnw)
    · exact hnw
  have hF1 : '{' ∉ GetFullName r := by
    rw [GetFullName]
    split
    · exact not_mem_append _ _ _ hs1 (not_mem_cons _ _ _ (by decide) hn1)
    · exact hn1
  have hF2 : '}' ∉ GetFullName r := by
    rw [GetFullName]
    split
    · exact not_mem_append _ _ _ hs2 (not_mem_cons _ _ _ (by decide) hn2)
    · exact hn2
  have hFne : GetFullName r ≠ [] := by
    rw [GetFullName]
    split
    · simp
    · exact hns
  have hFlen : 1 ≤ (GetFullName r).length := List.length_pos.mpr hFne
  have hdtb := deleteTargetBlock_eq r hnw hnd hsw hsd
  have hfwdmid : hasCh ("    forward . ".toList ++ r.TargetIP) '}' = false ∧
      countCh ("    forward . ".toList ++ r.TargetIP) '{' = 0 :=
    ⟨(hasCh_eq_false_iff _ '}').mpr (not_mem_append _ _ _ (by decide) hi2),
     List.count_eq_zero.mpr (not_mem_append _ _ _ (by decide) hi1)⟩
  cases hf : r.IsFullFQDN with
  | true =>
    rw [hf] at hdtb
    rw [if_pos rfl] at hdtb
    refine ⟨GetFullName r ++ ".svc.cluster.local:53 ".toList ++ ['{'],
      ["    forward . ".toList ++ r.TargetIP], ?_, ?_, ?_, ?_, ?_, ?_⟩
    · rw [ToCorefile, if_pos hf, splitLines_block_fqdn _ _ hFw hiw]
      rfl
    · rw [hdtb, trim_header (GetFullName r) _ hFne hFw,
        show GetFullName r ++ ".svc.cluster.local:53 ".toList ++ ['{']
          = (GetFullName r ++ ".svc.cluster.local:53".toList) ++ [' ', '{'] from by
            rw [show ".svc.cluster.local:53 ".toList
              = ".svc.cluster.local:53".toList ++ [' '] from rfl]
            simp]
      exact startsWith_append_self _ _
    · rw [countCh_append, countCh_append, countCh_eq_zero _ _ hF1,
        show countCh (".svc.cluster.local:53 ".toList) '{' = 0 from by decide,
        show countCh ['{'] '{' = 1 from by decide]
    · rw [countCh_append, countCh_append, countCh_eq_zero _ _ hF2,
        show countCh (".svc.cluster.local:53 ".toList) '}' = 0 from by decide,
        show countCh ['{'] '}' = 0 from by decide]
    · intro l hl
      rw [List.mem_singleton] at hl
      subst hl
      exact hfwdmid
    · rw [hdtb, List.length_append,
        show (".svc.cluster.local:53".toList).length = 21 from by decide]
      omega
  | false =>
    rw [hf] at hdtb
    rw [if_neg (by simp)] at hdtb
    have hmidrew : ∀ rewLit : GoStr, '{' ∉ rewLit → '}' ∉ rewLit →
        hasCh (rewLit ++ GetFullName r ++ ' ' ::
          (GetFullName r ++ ".svc.cluster.local. answer auto".toList)) '}' = false ∧
        countCh (rewLit ++ GetFullName r ++ ' ' ::
          (GetFullName r ++ ".svc.cluster.local. answer auto".toList)) '{' = 0 := by
      intro rewLit ho hc
      constructor
      · exact (hasCh_eq_false_iff _ '}').mpr
          (not_mem_append _ _ _ (not_mem_append _ _ _ hc hF2)
            (not_mem_cons _ _ _ (by decide) (not_mem_append _ _ _ hF2 (by decide))))
      · exact List.count_eq_zero.mpr
          (not_mem_append _ _ _ (not_mem_append _ _ _ ho hF1)
            (not_mem_cons _ _ _ (by decide) (not_mem_append _ _ _ hF1 (by decide))))
    have hstart : startsWithL (trimSpaceL (GetFullName r ++ ":53 ".toList ++ ['{']))
        (deleteTargetBlock (GetFullName r) false) = true := by
      rw [hdtb, trim_header (GetFullName r) _ hFne hFw,
        show GetFullName r ++ ":53 ".toList ++ ['{']
          = (GetFullName r ++ ":53".toList) ++ [' ', '{'] from by
            rw [show ":53 ".toList = ":53".toList ++ [' '] from rfl]
            simp]
      exact startsWith_append_self _ _
    have hcnt1 : countCh (GetFullName r ++ ":53 ".toList ++ ['{']) '{' = 1 := by
      rw [countCh_append, countCh_append, countCh_eq_zero _ _ hF1,
        show countCh (":53 ".toList) '{' = 0 from by decide,
        show countCh ['{'] '{' = 1 from by decide]
    have hcnt2 : countCh (GetFullName r ++ ":53 ".toList ++ ['{']) '}' = 0 := by
      rw [countCh_append, countCh_append, countCh_eq_zero _ _ hF2,
        show countCh (":53 ".toList) '}' = 0 from by decide,
        show countCh ['{'] '}' = 0 from by decide]
    have hlen : 1 < (deleteTargetBlock (GetFullName r) false).length := by
      rw [hdtb, List.length_append, show (":53".toList).length = 3 from by decide]
      omega
    by_cases hs : r.ServiceName = []
    · have hF : GetFullName r = r.Namespace := by rw [GetFullName, if_neg (by simp [hs])]
      refine ⟨GetFullName r ++ ":53 ".toList ++ ['{'],
        ["    rewrite name regex (.*)\\.".toList ++ GetFullName r ++ ' ' ::
            (GetFullName r ++ ".svc.cluster.local. answer auto".toList),
         "    forward . ".toList ++ r.TargetIP], ?_, hstart, hcnt1, hcnt2, ?_, hlen⟩
      · rw [ToCorefile, if_neg (by simp [hf]), if_neg (by simp [hs]), ← hF,
          splitLines_block_rewrite _ _ _ hFw hiw (by decide)]
        rfl
      · intro l hl
        rcases List.mem_cons.mp hl with h | h
        · subst h
          exact hmidrew _ (by decide) (by decide)
        · rw [List.mem_singleton] at h
          subst h
          exact hfwdmid
    · refine ⟨GetFullName r ++ ":53 ".toList ++ ['{'],
        ["    rewrite name exact ".toList ++ GetFullName r ++ ' ' ::
            (GetFullName r ++ ".svc.cluster.local. answer auto".toList),
         "    forward . ".toList ++ r.TargetIP], ?_, hstart, hcnt1, hcnt2, ?_, hlen⟩
      · rw [ToCorefile, if_neg (by simp [hf]), if_pos hs,
          splitLines_block_rewrite _ _ _ hFw hiw (by decide)]
        rfl
      · intro l hl
        rcases List.mem_cons.mp hl with h | h
        · subst h
          exact hmidrew _ (by decide) (by decide)
        · rw [List.mem_singleton] at h
          subst h
          exact hfwdmid

/-- C3: deleting a rule's identity from a text made of its rendered block
surrounded by unrelated lines removes exactly the block's lines; every
unrelated line before and after is copied verbatim, in order. -/
theorem deletionNonInterference (r : ForwardRule)
    (hns : r.Namespace ≠ []) (hnw : wsFree r.Namespace) (hnd : dotFree r.Namespace)
    (hsw : wsFree r.ServiceName) (hsd : dotFree r.ServiceName)
    (hiw : wsFree r.TargetIP)
    (hn1 : '{' ∉ r.Namespace) (hn2 : '}' ∉ r.Namespace)
    (hs1 : '{' ∉ r.ServiceName) (hs2 : '}' ∉ r.ServiceName)
    (hi1 : '{' ∉ r.TargetIP) (hi2 : '}' ∉ r.TargetIP)
    (pre post : List GoStr)
    (hpre : ∀ l ∈ pre, '\n' ∉ l ∧ startsWithL (trimSpaceL l)
      (deleteTargetBlock (GetFullName r) r.IsFullFQDN) = false)
    (hpost : ∀ l ∈ post, '\n' ∉ l ∧ startsWithL (trimSpaceL l)
      (deleteTargetBlock (GetFullName r) r.IsFullFQDN) = false) :
    deleteRuleText (GetFullName r) r.IsFullFQDN
        (joinLines (pre ++ splitLines (ToCorefile r) ++ post))
      = joinLines (pre ++ post) := by
  obtain ⟨H, mid, hsplit, hH, hHo, hHc, hmid, hlen⟩ :=
    rendered_block_shape r hns hnw hnd hsw hsd hiw hn1 hn2 hs1 hs2 hi1 hi2
  have hZm : startsWithL (trimSpaceL (['}'] : GoStr))
      (deleteTargetBlock (GetFullName r) r.IsFullFQDN) = false := by
    rw [show trimSpaceL (['}'] : GoStr) = ['}'] from by decide, startsWithL]
    exact isPrefixOf_eq_false_of_longer _ _ (by simpa using hlen)
  have hnl : ∀ l ∈ pre ++ splitLines (ToCorefile r) ++ post, '\n' ∉ l := by
    intro l hl
    rcases List.mem_append.mp hl with h | h
    · rcases List.mem_append.mp h with h2 | h2
      · exact (hpre l h2).1
      · exact splitLines_nl_free _ l h2
    · exact (hpost l h).1
  have hne : pre ++ splitLines (ToCorefile r) ++ post ≠ [] := by
    intro hh
    rw [List.append_eq_nil, List.append_eq_nil] at hh
    exact splitLines_ne_nil _ hh.1.2
  rw [deleteRuleText, splitLines_joinLines _ hnl hne, hsplit,
    List.append_assoc pre _ post,
    deleteLoop_copy _ pre _ 0 (fun l hl => (hpre l hl).2)]
  obtain ⟨m, hm⟩ := deleteLoop_block (deleteTargetBlock (GetFullName r) r.IsFullFQDN)
    H ['}'] mid post false 0 hH hHo hHc hmid hZm (by decide) (by decide) (by decide)
  rw [hm, deleteLoop_all_copy _ post m (fun l hl => (hpost l hl).2)]

/-- Witness for deletion non-interference at a concrete rule and an
unrelated root-zone block. -/
theorem deletionNonInterference_witness :
    deleteRuleText (GetFullName ⟨"staging".toList, [], "10.96.0.20".toList, false⟩) false
        (joinLines ([".:53 ".toList ++ ['{'], "    errors".toList, ['}']] ++
          splitLines (ToCorefile ⟨"staging".toList, [], "10.96.0.20".toList, false⟩) ++ []))
      = joinLines ([".:53 ".toList ++ ['{'], "    errors".toList, ['}']] ++ []) :=
  deletionNonInterference ⟨"staging".toList, [], "10.96.0.20".toList, false⟩
    (by decide) (by decide) (by decide) (by decide) (by decide) (by decide)
    (by decide) (by decide) (by decide) (by decide) (by decide) (by decide)
    [".:53 ".toList ++ ['{'], "    errors".toList, ['}']] []
    (by decide) (by decide)

/-- C4: when no line of the configuration matches the computed header
prefix, the deletion transformation is the identity and `DeleteForwardRule`
succeeds, writing the unchanged text back; no rule-not-found error exists. -/
theorem deleteAbsent (corefile name : GoStr) (isFullFQDN : Bool)
    (h : ∀ l ∈ splitLines corefile, startsWithL (trimSpaceL l)
        (deleteTargetBlock name isFullFQDN) = false) :
    DeleteForwardRule corefile name isFullFQDN = (Except.ok corefile, corefile) := by
  have h2 : deleteRuleText name isFullFQDN corefile = corefile := by
    rw [deleteRuleText, deleteLoop_all_copy _ _ 0 h, joinLines_splitLines]
  rw [DeleteForwardRule, h2]

/-- Witness for deletion of an absent rule on a concrete configuration. -/
theorem deleteAbsent_witness :
    DeleteForwardRule (joinLines [".:53 ".toList ++ ['{'], "    errors".toList, ['}']])
        ("prod".toList) true
      = (Except.ok (joinLines [".:53 ".toList ++ ['{'], "    errors".toList, ['}']]),
         joinLines [".:53 ".toList ++ ['{'], "    errors".toList, ['}']]) :=
  deleteAbsent _ _ _ (by decide)

/-- C10: when the text contains two rendered blocks whose headers both match
the deletion target, `DeleteForwardRule` removes both blocks, not only the
first. -/
theorem deleteRemovesAllBlocks (r1 r2 : ForwardRule)
    (hns1 : r1.Namespace ≠ []) (hnw1 : wsFree r1.Namespace) (hnd1 : dotFree r1.Namespace)
    (hsw1 : wsFree r1.ServiceName) (hsd1 : dotFree r1.ServiceName)
    (hiw1 : wsFree r1.TargetIP)
    (ha1 : '{' ∉ r1.Namespace) (ha2 : '}' ∉ r1.Namespace)
    (ha3 : '{' ∉ r1.ServiceName) (ha4 : '}' ∉ r1.ServiceName)
    (ha5 : '{' ∉ r1.TargetIP) (ha6 : '}' ∉ r1.TargetIP)
    (hns2 : r2.Namespace ≠ []) (hnw2 : wsFree r2.Namespace) (hnd2 : dotFree r2.Namespace)
    (hsw2 : wsFree r2.ServiceName) (hsd2 : dotFree r2.ServiceName)
    (hiw2 : wsFree r2.TargetIP)
    (hb1 : '{' ∉ r2.Namespace) (hb2 : '}' ∉ r2.Namespace)
    (hb3 : '{' ∉ r2.ServiceName) (hb4 : '}' ∉ r2.ServiceName)
    (hb5 : '{' ∉ r2.TargetIP) (hb6 : '}' ∉ r2.TargetIP)
    (heq : GetFullName r2 = GetFullName r1) (hfq : r2.IsFullFQDN = r1.IsFullFQDN)
    (pre midtext post : List GoStr)
    (hpre : ∀ l ∈ pre, '\n' ∉ l ∧ startsWithL (trimSpaceL l)
      (deleteTargetBlock (GetFullName r1) r1.IsFullFQDN) = false)
    (hmidt : ∀ l ∈ midtext, '\n' ∉ l ∧ startsWithL (trimSpaceL l)
      (deleteTargetBlock (GetFullName r1) r1.IsFullFQDN) = false)
    (hpost : ∀ l ∈ post, '\n' ∉ l ∧ startsWithL (trimSpaceL l)
      (deleteTargetBlock (GetFullName r1) r1.IsFullFQDN) = false) :
    deleteRuleText (GetFullName r1) r1.IsFullFQDN
        (joinLines (pre ++ splitLines (ToCorefile r1) ++ midtext ++
          splitLines (ToCorefile r2) ++ post))
      = joinLines (pre ++ midtext ++ post) := by
  obtain ⟨H1, mid1, hsplit1, hH1, hHo1, hHc1, hmid1, hlen1⟩ :=
    rendered_block_shape r1 hns1 hnw1 hnd1 hsw1 hsd1 hiw1 ha1 ha2 ha3 ha4 ha5 ha6
  obtain ⟨H2, mid2, hsplit2, hH2, hHo2, hHc2, hmid2, _⟩ :=
    rendered_block_shape r2 hns2 hnw2 hnd2 hsw2 hsd2 hiw2 hb1 hb2 hb3 hb4 hb5 hb6
  have htgt : deleteTargetBlock (GetFullName r2) r2.IsFullFQDN
      = deleteTargetBlock (GetFullName r1) r1.IsFullFQDN := by rw [heq, hfq]
  rw [htgt] at hH2
  have hZm : startsWithL (trimSpaceL (['}'] : GoStr))
      (deleteTargetBlock (GetFullName r1) r1.IsFullFQDN) = false := by
    rw [show trimSpaceL (['}'] : GoStr) = ['}'] from by decide, startsWithL]
    exact isPrefixOf_eq_false_of_longer _ _ (by simpa using hlen1)
  have hnl : ∀ l ∈ pre ++ splitLines (ToCorefile r1) ++ midtext ++
      splitLines (ToCorefile r2) ++ post, '\n' ∉ l := by
    intro l hl
    rcases List.mem_append.mp hl with h | h
    · rcases List.mem_append.mp h with h | h
      · rcases List.mem_append.mp h with h | h
        · rcases List.mem_append.mp h with h | h
          · exact (hpre l h).1
          · exact splitLines_nl_free _ l h
        · exact (hmidt l h).1
      · exact splitLines_nl_free _ l h
    · exact (hpost l h).1
  have hne : pre ++ splitLines (ToCorefile r1) ++ midtext ++
      splitLines (ToCorefile r2) ++ post ≠ [] := by
    intro hh
    rw [List.append_eq_nil, List.append_eq_nil, List.append_eq_nil,
      List.append_eq_nil] at hh
    exact splitLines_ne_nil _ hh.1.1.1.2
  rw [deleteRuleText, splitLines_joinLines _ hnl hne, hsplit1, hsplit2]
  rw [show (((pre ++ (H1 :: mid1 ++ [(['}'] : GoStr)])) ++ midtext) ++
        (H2 :: mid2 ++ [(['}'] : GoStr)])) ++ post
      = pre ++ ((H1 :: mid1 ++ [(['}'] : GoStr)]) ++
          (midtext ++ ((H2 :: mid2 ++ [(['}'] : GoStr)]) ++ post))) from by simp]
  rw [deleteLoop_copy _ pre _ 0 (fun l hl => (hpre l hl).2)]
  obtain ⟨m1, hm1⟩ := deleteLoop_block (deleteTargetBlock (GetFullName r1) r1.IsFullFQDN)
    H1 ['}'] mid1 (midtext ++ ((H2 :: mid2 ++ [(['}'] : GoStr)]) ++ post)) false 0
    hH1 hHo1 hHc1 hmid1 hZm (by decide) (by decide) (by decide)
  rw [hm1, deleteLoop_copy _ midtext _ m1 (fun l hl => (hmidt l hl).2)]
  obtain ⟨m2, hm2⟩ := deleteLoop_block (deleteTargetBlock (GetFullName r1) r1.IsFullFQDN)
    H2 ['}'] mid2 post false m1 hH2 hHo2 hHc2 hmid2 hZm (by decide) (by decide) (by decide)
  rw [hm2, deleteLoop_all_copy _ post m2 (fun l hl => (hpost l hl).2),
    ← List.append_assoc]

/-- Witness for removal of every matching block: two `prod` FQDN blocks with
different target IPs are both removed. -/
theorem deleteRemovesAllBlocks_witness :
    deleteRuleText (GetFullName ⟨"prod".toList, [], "10.96.0.10".toList, true⟩) true
        (joinLines ([".:53 ".toList ++ ['{'], "    errors".toList, ['}']] ++
          splitLines (ToCorefile ⟨"prod".toList, [], "10.96.0.10".toList, true⟩) ++
          ["# between".toList] ++
          splitLines (ToCorefile ⟨"prod".toList, [], "10.96.0.20".toList, true⟩) ++ []))
      = joinLines ([".:53 ".toList ++ ['{'], "    errors".toList, ['}']] ++
          ["# between".toList] ++ []) :=
  deleteRemovesAllBlocks ⟨"prod".toList, [], "10.96.0.10".toList, true⟩
    ⟨"prod".toList, [], "10.96.0.20".toList, true⟩
    (by decide) (by decide) (by decide) (by decide) (by decide) (by decide)
    (by decide) (by decide) (by decide) (by decide) (by decide) (by decide)
    (by decide) (by decide) (by decide) (by decide) (by decide) (by decide)
    (by decide) (by decide) (by decide) (by decide) (by decide) (by decide)
    (by decide) (by decide)
    [".:53 ".toList ++ ['{'], "    errors".toList, ['}']] ["# between".toList] []
    (by decide) (by decide) (by decide)

/-- C2: when any rule parsed from the stored text shares the new rule's
full name, `AddForwardRule` fails with the duplicate-rule error and the
stored text is left unmodified. -/
theorem duplicateRejection (corefile : GoStr) (rule : ForwardRule)
    (h : ∃ r ∈ parseForwardRules corefile, GetFullName r = GetFullName rule) :
    AddForwardRule corefile rule
      = (Except.error (CoreError.duplicateRule (GetFullName rule)), corefile) := by
  obtain ⟨r, hr, he⟩ := h
  rw [AddForwardRule, if_pos (List.any_eq_true.mpr ⟨r, hr, decide_eq_true he⟩)]

/-- Witness for duplicate rejection: the stored text holds the rule as an
FQDN block, the new rule uses the short form; the full names collide. -/
theorem duplicateRejection_witness :
    AddForwardRule (ToCorefile ⟨"prod".toList, [], "10.96.0.10".toList, true⟩)
        ⟨"prod".toList, [], "10.96.0.99".toList, false⟩
      = (Except.error (CoreError.duplicateRule
          (GetFullName ⟨"prod".toList, [], "10.96.0.99".toList, false⟩)),
         ToCorefile ⟨"prod".toList, [], "10.96.0.10".toList, true⟩) :=
  duplicateRejection _ _ (by decide)

theorem lookupClient_insert (cl : List (ClusterID × Nat)) (n : Nat) (id : ClusterID)
    (h : Nat) : lookupClient ⟨(id, h) :: cl, n⟩ id = some h := by
  rw [lookupClient]
  rw [List.find?_cons_of_pos _ (by simp)]
  rfl

theorem lookupClient_remove (m : Manager) (id : ClusterID) :
    lookupClient (RemoveClient m id) id = none := by
  have h2 : List.find? (fun p => decide (p.1 = id))
      (List.filter (fun p => decide (p.1 ≠ id)) m.clients) = none :=
    List.find?_eq_none.mpr (fun x hx => by
      have h3 := (List.mem_filter.mp hx).2
      simp at h3 ⊢
      exact h3)
  simp only [lookupClient, RemoveClient]
  rw [h2]
  rfl

theorem GetClient_hit (m : Manager) (id : ClusterID) (h : Nat)
    (hl : lookupClient m id = some h) : GetClient m id = (h, m) := by
  rw [GetClient, hl]

theorem GetClient_miss (m : Manager) (id : ClusterID)
    (hl : lookupClient m id = none) :
    GetClient m id = (m.nextHandle, ⟨(id, m.nextHandle) :: m.clients, m.nextHandle + 1⟩) := by
  rw [GetClient, hl]

theorem removeAbsent_noop (m : Manager) (id : ClusterID)
    (hl : lookupClient m id = none) : RemoveClient m id = m := by
  have h2 : List.find? (fun p => decide (p.1 = id)) m.clients = none := by
    rw [lookupClient] at hl
    exact Option.map_eq_none'.mp hl
  have h3 : List.filter (fun p => decide (p.1 ≠ id)) m.clients = m.clients :=
    List.filter_eq_self.mpr (fun a ha => by
      have h4 := List.find?_eq_none.mp h2 a ha
      simpa using h4)
  rw [RemoveClient, h3]

/-- C9 (amended): the cache entry moves only between absent and live.
Resolving twice without a failure returns the same cached handle and state;
a successful probe performs no eviction (its final state is exactly the
post-resolution state, unchanged when the identifier was already cached); a
failed probe returns a connectivity error, evicts the identifier, and a
subsequent resolve constructs a fresh handle different from the evicted
one; evicting an absent identifier is a no-op. -/
theorem cacheStateMachine_amended (m : Manager) (id : ClusterID) (hwf : ManagerWF m) :
    (∀ h1 m1, GetClient m id = (h1, m1) → GetClient m1 id = (h1, m1)) ∧
    (∀ h, lookupClient m id = some h → TestConnection m id true = (Except.ok (), m)) ∧
    (TestConnection m id true).2 = (GetClient m id).2 ∧
    ((TestConnection m id false).1 = Except.error ("failed to connect to cluster") ∧
      lookupClient (TestConnection m id false).2 id = none ∧
      ∀ h0, lookupClient m id = some h0 →
        (GetClient (TestConnection m id false).2 id).1
            = (TestConnection m id false).2.nextHandle ∧
        (GetClient (TestConnection m id false).2 id).1 ≠ h0) ∧
    (lookupClient m id = none → RemoveClient m id = m) := by
  have htcf : TestConnection m id false
      = (Except.error ("failed to connect to cluster"),
         RemoveClient (GetClient m id).2 id) := rfl
  refine ⟨?_, ?_, rfl, ⟨rfl, ?_, ?_⟩, removeAbsent_noop m id⟩
  · intro h1 m1 hgc
    cases hl : lookupClient m id with
    | some h =>
      rw [GetClient_hit m id h hl] at hgc
      injection hgc with e1 e2
      subst e1
      subst e2
      exact GetClient_hit m id h hl
    | none =>
      rw [GetClient_miss m id hl] at hgc
      injection hgc with e1 e2
      subst e1
      subst e2
      exact GetClient_hit _ id _ (lookupClient_insert m.clients (m.nextHandle + 1) id m.nextHandle)
  · intro h hl
    rw [TestConnection, GetClient_hit m id h hl]
    simp
  · rw [htcf]
    exact lookupClient_remove _ _
  · intro h0 hl
    have hev : (TestConnection m id false).2 = RemoveClient m id := by
      rw [htcf, GetClient_hit m id h0 hl]
    have hmiss := GetClient_miss (RemoveClient m id) id (lookupClient_remove m id)
    have hn : (RemoveClient m id).nextHandle = m.nextHandle := rfl
    constructor
    · rw [hev, hmiss]
    · rw [hev, hmiss, hn]
      obtain ⟨p, hp, hp2⟩ : ∃ p, List.find? (fun p => decide (p.1 = id)) m.clients
          = some p ∧ p.2 = h0 := by
        rw [lookupClient] at hl
        exact Option.map_eq_some'.mp hl
      have hlt : p.2 < m.nextHandle := hwf p (List.mem_of_find?_eq_some hp)
      rw [hp2] at hlt
      omega

/-- C9 counterexample: a successful probe of an identifier that is not yet
cached does change the cache — the freshly constructed handle is inserted,
so probe-on-success does not leave the cache unchanged in general. -/
theorem cacheProbe_counterexample :
    lookupClient (⟨[], 0⟩ : Manager) "c1" = none ∧
    (TestConnection (⟨[], 0⟩ : Manager) "c1" true).2 ≠ (⟨[], 0⟩ : Manager) ∧
    lookupClient (TestConnection (⟨[], 0⟩ : Manager) "c1" true).2 "c1" = some 0 := by
  decide

/-- Witness for the amended cache state machine at a concrete one-entry
cache. -/
theorem cacheStateMachine_witness :
    TestConnection (⟨[("c1", 0)], 1⟩ : Manager) "c1" true
      = (Except.ok (), (⟨[("c1", 0)], 1⟩ : Manager)) :=
  (cacheStateMachine_amended (⟨[("c1", 0)], 1⟩ : Manager) "c1" (by decide)).2.1 0 (by decide)
